import Mathlib

/-
Verification of the color-sudoku generator (four generation algorithms:
plain backtracking, MRV backtracking, DSATUR greedy coloring, and a
Dancing-Links exact-cover engine), shallowly embedded from the Python
sources in src/.  Grids are lists of rows of optional color labels;
the DLX linked matrix is embedded as an arena of integer node ids with
pointer maps.  Randomness (random.shuffle of the color list) is modelled
by an explicit oracle parameter supplying the color order used at each
decision point; all theorems quantify over that oracle.
-/

/-- Colors are the string labels used by the Python code. -/
abbrev Color := String

/-- A grid is a list of rows; a cell holds an optional color (None = empty),
mirroring List[List[Optional[str]]]. -/
abbrev Grid := List (List (Option Color))

/-- Read cell (r, c).  Out-of-range reads yield none; the Python code only
indexes in range (out-of-range indexing would raise), and every theorem that
depends on the distinction carries in-range hypotheses. -/
def cell (g : Grid) (r c : Nat) : Option Color :=
  (g.getD r []).getD c none

/-- Write cell (r, c) (grid[r][c] = v).  List.set is the identity out of
range, where Python would raise. -/
def setCell (g : Grid) (r c : Nat) (v : Option Color) : Grid :=
  g.set r ((g.getD r []).set c v)

/-- The empty size x size grid ([[None]*size]*size as built by each solver). -/
def emptyGrid (size : Nat) : Grid :=
  List.replicate size (List.replicate size none)

namespace ColorSudoku

/-- base_colors list from core.py generate_colors (16 entries). -/
def base_colors : List Color :=
  ["red", "blue", "green", "yellow", "orange", "purple", "pink", "brown",
   "cyan", "lime", "teal", "magenta", "gold", "silver", "navy", "maroon"]

/-- A structurally recursive floor square root (Nat.sqrt is defined by
well-founded recursion, which the kernel cannot evaluate): the largest
r at most the first argument with r * r at most n. -/
def isqrtAux : Nat → Nat → Nat
  | 0, _ => 0
  | r + 1, n => if (r + 1) * (r + 1) ≤ n then r + 1 else isqrtAux r n

/-- rank = int(size ** 0.5) from core.py: the floor square root
(proved equal to Nat.sqrt below). -/
def rankOf (size : Nat) : Nat := isqrtAux size size

/-- generate_colors from core.py: base_colors[:rank ** 2]. -/
def generate_colors (size : Nat) : List Color :=
  base_colors.take (rankOf size * rankOf size)

/-- is_valid_placement from core.py: the color may be placed at (row, col)
iff it does not already occur at another cell of the row, the column, or
the box; the cell (row, col) itself is skipped by the scans. -/
def is_valid_placement (size : Nat) (g : Grid) (row col : Nat) (color : Color) : Bool :=
  ((List.range size).all fun i =>
    !(i != col && cell g row i == some color) &&
    !(i != row && cell g i col == some color)) &&
  (let box_size := rankOf size
   let box_row := row / box_size * box_size
   let box_col := col / box_size * box_size
   (List.range box_size).all fun i =>
     (List.range box_size).all fun j =>
       !(((box_row + i, box_col + j) : Nat × Nat) != (row, col) &&
         cell g (box_row + i) (box_col + j) == some color))

/-- is_valid_solution from core.py: every cell is filled and every filled
cell passes is_valid_placement. -/
def is_valid_solution (size : Nat) (g : Grid) : Bool :=
  (List.range size).all fun r =>
    (List.range size).all fun c =>
      match cell g r c with
      | none => false
      | some color => is_valid_placement size g r c color

/-- set_user_color from core.py: assign the color only if the cell is
currently empty. -/
def set_user_color (g : Grid) (row col : Nat) (color : Color) : Grid :=
  if cell g row col = none then setCell g row col (some color) else g

/-- remove_colors from core.py: cells is a shuffled list of all cell
coordinates (the shuffle is an oracle input here); remove_count cells are
popped from its end and blanked. -/
def remove_colors (g : Grid) (shuffled : List (Nat × Nat)) (remove_count : Nat) : Grid :=
  (shuffled.reverse.take remove_count).foldl (fun h p => setCell h p.1 p.2 none) g

/-- The row unit of cell (row, _): all cells (row, i), i < size. -/
def rowUnit (size row : Nat) : List (Nat × Nat) :=
  (List.range size).map fun i => (row, i)

/-- The column unit of cell (_, col): all cells (i, col), i < size. -/
def colUnit (size col : Nat) : List (Nat × Nat) :=
  (List.range size).map fun i => (i, col)

/-- The box unit containing (row, col): the rank x rank sub-grid with
origin ((row / rank) * rank, (col / rank) * rank). -/
def boxUnit (size row col : Nat) : List (Nat × Nat) :=
  let bs := rankOf size
  (List.range bs).flatMap fun i =>
    (List.range bs).map fun j => (row / bs * bs + i, col / bs * bs + j)

/-- All cells of the three units of (row, col) (with repetitions). -/
def unitCells (size row col : Nat) : List (Nat × Nat) :=
  rowUnit size row ++ colUnit size col ++ boxUnit size row col

end ColorSudoku

/-- The is_valid helper shared verbatim by backtracking.py and mrv.py:
the color must not occur anywhere in the row, the column, or the box
(the cell under test is not excluded; both callers only test empty cells). -/
def gen_is_valid (size : Nat) (g : Grid) (row col : Nat) (color : Color) : Bool :=
  ((List.range size).all fun i =>
    !(cell g row i == some color) && !(cell g i col == some color)) &&
  (let box_size := ColorSudoku.rankOf size
   let box_row := row / box_size * box_size
   let box_col := col / box_size * box_size
   (List.range box_size).all fun i =>
     (List.range box_size).all fun j =>
       !(cell g (box_row + i) (box_col + j) == some color))

/-- An order oracle: the contents of the (shuffled, mutable) self.colors
list as observed at a decision point, given the cell and the current grid.
Every run of the Python code is reproduced by some oracle. -/
abbrev ColorOrd := Nat → Nat → Grid → List Color

/-- The color loop shared by backtracking.py solve and mrv.py solve: try
each color in order; on a valid one, place it and run the continuation
recur (the recursive solve); on failure of the continuation, blank the
cell again and try the next color. -/
def tryColors (size : Nat) (recur : Grid → Bool × Grid) (row col : Nat) :
    List Color → Grid → Bool × Grid
  | [], g => (false, g)
  | c :: rest, g =>
    if gen_is_valid size g row col c then
      let g1 := setCell g row col (some c)
      match recur g1 with
      | (true, g2) => (true, g2)
      | (false, g2) => tryColors size recur row col rest (setCell g2 row col none)
    else
      tryColors size recur row col rest g

namespace Backtracking

/-- solve from backtracking.py, with an explicit fuel (the Python
recursion always terminates; fuel zero reports failure).  ord row col g
is the content of self.colors after the random.shuffle of this call. -/
def solve (size : Nat) (ord : ColorOrd) : Nat → Grid → Nat → Nat → Bool × Grid
  | 0, g, _, _ => (false, g)
  | fuel + 1, g, row, col =>
    if row = size then (true, g)
    else if col = size then solve size ord fuel g (row + 1) 0
    else tryColors size (fun g1 => solve size ord fuel g1 row (col + 1)) row col
      (ord row col g) g

/-- generate_sudoku from backtracking.py: run solve from the empty grid
and return the grid field, whether or not solve succeeded. -/
def generate_sudoku (size : Nat) (ord : ColorOrd) : Grid :=
  (solve size ord ((size + 1) * (size + 1)) (emptyGrid size) 0 0).2

end Backtracking

namespace MRV

/-- get_least_remaining_values_cell from mrv.py: scan cells in raster
order, keeping the first empty cell whose count of valid colors is
strictly smaller than the best so far (min_values starts at infinity). -/
def get_least_remaining_values_cell (size : Nat) (colors : List Color) (g : Grid) :
    Option (Nat × Nat) :=
  (((List.range size).foldl (fun acc row =>
    (List.range size).foldl (fun acc col =>
      if cell g row col = none then
        let k := (colors.filter fun c => gen_is_valid size g row col c).length
        match acc with
        | none => some ((row, col), k)
        | some (_, m) => if k < m then some ((row, col), k) else acc
      else acc) acc) none : Option ((Nat × Nat) × Nat))).map Prod.fst

/-- solve from mrv.py with fuel: pick the most constrained empty cell and
run the shared color loop there; colors is the configured color list
(used by the MRV scan) and ord the shuffle oracle. -/
def solve (size : Nat) (colors : List Color) (ord : ColorOrd) : Nat → Grid → Bool × Grid
  | 0, g => (false, g)
  | fuel + 1, g =>
    match get_least_remaining_values_cell size colors g with
    | none => (true, g)
    | some (row, col) =>
      tryColors size (fun g1 => solve size colors ord fuel g1) row col (ord row col g) g

/-- generate_sudoku from mrv.py. -/
def generate_sudoku (size : Nat) (colors : List Color) (ord : ColorOrd) : Grid :=
  (solve size colors ord (size * size + 1) (emptyGrid size)).2

end MRV

namespace DSATUR

/-- get_neighbors from dsatur.py: the row, column and box cells of
(row, col) with the cell itself removed.  The Python code builds a set;
only membership and the number of distinct neighbor colors are ever used,
so a list with repetitions is an adequate embedding. -/
def get_neighbors (size row col : Nat) : List (Nat × Nat) :=
  (((List.range size).flatMap fun i => [(row, i), (i, col)]) ++
   (let bs := ColorSudoku.rankOf size
    (List.range bs).flatMap fun i =>
      (List.range bs).map fun j => (row / bs * bs + i, col / bs * bs + j))).filter
    (fun p => p ≠ (row, col))

/-- The colors present among the neighbors of (row, col) (used_colors in
dsatur.py, as a list with repetitions). -/
def neighbor_colors (size : Nat) (g : Grid) (row col : Nat) : List Color :=
  (get_neighbors size row col).filterMap fun p => cell g p.1 p.2

/-- get_saturation from dsatur.py: the number of distinct neighbor colors. -/
def get_saturation (size : Nat) (g : Grid) (p : Nat × Nat) : Nat :=
  (neighbor_colors size g p.1 p.2).dedup.length

/-- The unassigned_cells list of get_most_saturated_cell (raster order). -/
def unassigned_cells (size : Nat) (g : Grid) : List (Nat × Nat) :=
  ((List.range size).flatMap fun r => (List.range size).map fun c => (r, c)).filter
    (fun p => cell g p.1 p.2 = none)

/-- get_most_saturated_cell from dsatur.py: Python max(xs, key=f) keeps
the first element attaining the maximum key. -/
def get_most_saturated_cell (size : Nat) (g : Grid) : Option (Nat × Nat) :=
  (unassigned_cells size g).foldl (fun acc p =>
    match acc with
    | none => some p
    | some q => if get_saturation size g q < get_saturation size g p then some p else acc)
    none

/-- assign_color from dsatur.py: the first configured color not used by a
neighbor, if any. -/
def assign_color (size : Nat) (colors : List Color) (g : Grid) (row col : Nat) :
    Option Color :=
  (colors.filter fun c => !((neighbor_colors size g row col).contains c)).head?

/-- The while loop of generate_sudoku from dsatur.py, with fuel: pick the
most saturated empty cell and assign it a color, failing (None) when no
color is available. -/
def loop (size : Nat) (colors : List Color) : Nat → Grid → Option Grid
  | 0, _ => none
  | fuel + 1, g =>
    match get_most_saturated_cell size g with
    | none => some g
    | some (row, col) =>
      match assign_color size colors g row col with
      | none => none
      | some c => loop size colors fuel (setCell g row col (some c))

/-- generate_sudoku from dsatur.py: some grid on success, none on a
dead end (the Python function returns None then). -/
def generate_sudoku (size : Nat) (colors : List Color) : Option Grid :=
  loop size colors (size * size + 1) (emptyGrid size)

end DSATUR

/-- The DLX engine state from knuth.py, embedded as an arena of integer
node ids with pointer maps: id 0 is the header, ids 1..numCols the column
headers, later ids the element nodes (in creation order).  Every id is
self-linked until first used, matching DLXNode.__init__.  colOf is the
column back-reference, rowOf the stored row index, size the per-column
live count, solution the engine's solution stack. -/
@[ext] structure DLXState where
  up : Nat → Nat
  down : Nat → Nat
  left : Nat → Nat
  right : Nat → Nat
  colOf : Nat → Nat
  rowOf : Nat → Nat
  size : Nat → Int
  solution : List Nat

namespace DLX

/-- The fresh arena: every node self-linked (DLXNode() defaults). -/
def init : DLXState :=
  { up := id, down := id, left := id, right := id,
    colOf := fun _ => 0, rowOf := fun _ => 0, size := fun _ => 0, solution := [] }

/-- The column-header linking phase of build_linked_matrix: thread the
circular header ring 0 -> 1 -> ... -> numCols -> 0. -/
def linkColumns (numCols : Nat) (s : DLXState) : DLXState :=
  let s1 := { s with right := Function.update s.right 0 1,
                     left := Function.update s.left 1 0 }
  let s2 := (List.range' 1 (numCols - 1)).foldl (fun t i =>
    { t with right := Function.update t.right i (i + 1),
             left := Function.update t.left (i + 1) i }) s1
  { s2 with right := Function.update s2.right numCols 0,
            left := Function.update s2.left 0 numCols }

/-- Insertion of one element node in build_linked_matrix: bump the column
size, splice the node into the row ring (before first, i.e. at the ring's
end) unless it is the row's first node, and splice it at the bottom of its
column ring.  nd is the fresh (still self-linked) node id, cl the column
header id. -/
def insertNode (s : DLXState) (nd cl rowIdx : Nat) (first : Option Nat) : DLXState :=
  let s0 := { s with colOf := Function.update s.colOf nd cl,
                     rowOf := Function.update s.rowOf nd rowIdx,
                     size := Function.update s.size cl (s.size cl + 1) }
  let s1 := match first with
    | none => s0
    | some f =>
      { s0 with left := Function.update (Function.update s0.left nd (s0.left f)) f nd,
                right := Function.update (Function.update s0.right nd f) (s0.left f) nd }
  let u := s1.up cl
  { s1 with down := Function.update (Function.update s1.down u nd) nd cl,
            up := Function.update (Function.update s1.up nd u) cl nd }

/-- One matrix row of build_linked_matrix: walk the row entries, creating
a node for every nonzero, tracking the row's first node and the next fresh
id. -/
def buildRow (s : DLXState) (nextId rowIdx : Nat) (mrow : List Nat) : DLXState × Nat :=
  let res := mrow.enum.foldl (fun (acc : DLXState × Option Nat × Nat) (p : Nat × Nat) =>
    if p.2 != 0 then
      let t1 := insertNode acc.1 acc.2.2 (p.1 + 1) rowIdx acc.2.1
      (t1, some ((acc.2.1).getD acc.2.2), acc.2.2 + 1)
    else acc) (s, none, nextId)
  (res.1, res.2.2)

/-- build_linked_matrix from knuth.py. -/
def build_linked_matrix (matrix : List (List Nat)) : DLXState :=
  let numCols := (matrix.headD []).length
  let s0 := linkColumns numCols init
  (matrix.enum.foldl (fun (acc : DLXState × Nat) (p : Nat × List Nat) =>
      buildRow acc.1 acc.2 p.1 p.2) (s0, numCols + 1)).1

/-- The inner unlink of cover: remove node j from its column ring and
decrement its column's size (the three mutations of the inner while). -/
def unlinkUD (s : DLXState) (j : Nat) : DLXState :=
  { s with up := Function.update s.up (s.down j) (s.up j),
           down := Function.update s.down (s.up j) (s.down j),
           size := Function.update s.size (s.colOf j) (s.size (s.colOf j) - 1) }

/-- The inner relink of uncover: put node j back into its column ring and
restore its column's size (exact inverse of unlinkUD when j's own links
are intact). -/
def relinkUD (s : DLXState) (j : Nat) : DLXState :=
  { s with size := Function.update s.size (s.colOf j) (s.size (s.colOf j) + 1),
           up := Function.update s.up (s.down j) j,
           down := Function.update s.down (s.up j) j }

/-- The inner while of cover: walk right from node's right neighbor back
to node, unlinking every node passed (fuel bounds the walk). -/
def coverRowAux : DLXState → Nat → Nat → Nat → DLXState
  | s, _, _, 0 => s
  | s, node, j, fuel + 1 =>
    if j = node then s
    else
      let s1 := unlinkUD s j
      coverRowAux s1 node (s1.right j) fuel

/-- The outer while of cover: walk down the covered column, running the
inner unlink walk for every row met. -/
def coverColAux (F : Nat) : DLXState → Nat → Nat → Nat → DLXState
  | s, _, _, 0 => s
  | s, c, node, fuel + 1 =>
    if node = c then s
    else
      let s1 := coverRowAux s node (s.right node) F
      coverColAux F s1 c (s1.down node) fuel

/-- cover from knuth.py: unlink the column header from the header ring,
then remove every row of the column from all other columns. -/
def cover (F : Nat) (s : DLXState) (c : Nat) : DLXState :=
  let s0 := { s with left := Function.update s.left (s.right c) (s.left c),
                     right := Function.update s.right (s.left c) (s.right c) }
  coverColAux F s0 c (s0.down c) F

/-- The inner while of uncover: walk left from node's left neighbor back
to node, relinking every node passed. -/
def uncoverRowAux : DLXState → Nat → Nat → Nat → DLXState
  | s, _, _, 0 => s
  | s, node, j, fuel + 1 =>
    if j = node then s
    else
      let s1 := relinkUD s j
      uncoverRowAux s1 node (s1.left j) fuel

/-- The outer while of uncover: walk up the column, running the inner
relink walk for every row met. -/
def uncoverColAux (F : Nat) : DLXState → Nat → Nat → Nat → DLXState
  | s, _, _, 0 => s
  | s, c, node, fuel + 1 =>
    if node = c then s
    else
      let s1 := uncoverRowAux s node (s.left node) F
      uncoverColAux F s1 c (s1.up node) fuel

/-- uncover from knuth.py: relink all rows of the column bottom-up, then
relink the column header into the header ring. -/
def uncover (F : Nat) (s : DLXState) (c : Nat) : DLXState :=
  let s1 := uncoverColAux F s c (s.up c) F
  { s1 with left := Function.update s1.left (s1.right c) c,
            right := Function.update s1.right (s1.left c) c }

/-- The cover loop of a selected row in search: cover the column of every
node to the right of node in its row ring. -/
def coverRights (F : Nat) : DLXState → Nat → Nat → Nat → DLXState
  | s, _, _, 0 => s
  | s, node, j, fuel + 1 =>
    if j = node then s
    else
      let s1 := cover F s (s.colOf j)
      coverRights F s1 node (s1.right j) fuel

/-- The uncover loop of the backtrack path in search: uncover the column
of every node to the left of node in its row ring. -/
def uncoverLefts (F : Nat) : DLXState → Nat → Nat → Nat → DLXState
  | s, _, _, 0 => s
  | s, node, j, fuel + 1 =>
    if j = node then s
    else
      let s1 := uncover F s (s.colOf j)
      uncoverLefts F s1 node (s1.left j) fuel

mutual

/-- search from knuth.py, with fuel: an Option Bool result where some b
is the Python return value b and none means the fuel ran out (the Python
recursion carries no fuel).  The selected column is always the header's
right neighbor. -/
def search (F : Nat) : Nat → DLXState → Option Bool × DLXState
  | 0, s => (none, s)
  | fuel + 1, s =>
    if s.right 0 = 0 then (some true, s)
    else
      let c := s.right 0
      let s1 := cover F s c
      searchRows F fuel s1 c (s1.down c)

/-- The row loop of search: try each node of the chosen column top to
bottom; push its row on the solution stack, cover its row-mates' columns,
recurse, and on failure pop, uncover in reverse, and move down. -/
def searchRows (F : Nat) : Nat → DLXState → Nat → Nat → Option Bool × DLXState
  | 0, s, _, _ => (none, s)
  | fuel + 1, s, c, node =>
    if node = c then (some false, uncover F s c)
    else
      let s1 := { s with solution := s.solution ++ [s.rowOf node] }
      let s2 := coverRights F s1 node (s1.right node) F
      match search F fuel s2 with
      | (some true, s3) => (some true, s3)
      | (some false, s3) =>
        let s4 := { s3 with solution := s3.solution.dropLast }
        let s5 := uncoverLefts F s4 node (s4.left node) F
        searchRows F fuel s5 c (s5.down node)
      | (none, s3) => (none, s3)

end

end DLX

namespace DLXGen

/-- A 2-dimensional list update (matrix[i][j] = v).  List.set drops an
out-of-range write where Python raises IndexError; set2dChk below makes
the crash explicit, and theorems that rely on this unchecked variant
carry in-range (perfect-square) hypotheses. -/
def set2d (m : List (List Nat)) (i j v : Nat) : List (List Nat) :=
  m.set i ((m.getD i []).set j v)

/-- create_exact_cover_matrix from knuth.py: a size^3 x 4*size^2 zero
matrix with, for every (row, col, num), ones at the cell, row-color,
column-color and box-color constraint columns.  For a size that is not a
perfect square the Python box write goes out of range and raises
IndexError; this unchecked variant silently drops such writes and is the
in-range restriction of create_exact_cover_matrixChk below. -/
def create_exact_cover_matrix (size : Nat) : List (List Nat) :=
  let num_constraints := 4 * size * size
  let m0 := List.replicate (size * size * size) (List.replicate num_constraints 0)
  let box_size := ColorSudoku.rankOf size
  (List.range size).foldl (fun m row =>
    (List.range size).foldl (fun m col =>
      (List.range size).foldl (fun m num =>
        let index := (row * size + col) * size + num
        let m1 := set2d m index (row * size + col) 1
        let m2 := set2d m1 index (size * size + row * size + num) 1
        let m3 := set2d m2 index (2 * size * size + col * size + num) 1
        let box := row / box_size * box_size + col / box_size
        set2d m3 index (3 * size * size + box * size + num) 1) m) m) m0

/-- build_grid_from_solution from knuth.py: decode each selected matrix
row index into (row, col, num) and write colors[num] (Python would raise
on an out-of-range num; getD with a dummy default stands in). -/
def build_grid_from_solution (size : Nat) (colors : List Color) (solution : List Nat) : Grid :=
  solution.foldl (fun g entry =>
    let row := entry / (size * size)
    let col := entry / size % size
    let num := entry % size
    setCell g row col (some (colors.getD num ""))) (emptyGrid size)

/-- generate_sudoku from knuth.py: build the exact-cover matrix, link it,
search, and decode whatever solution stack is left (chainF and searchF
are the embedding's fuels; the Python recursion runs unbounded). -/
def generate_sudoku (size : Nat) (colors : List Color) (chainF searchF : Nat) : Grid :=
  let st := DLX.build_linked_matrix (create_exact_cover_matrix size)
  let res := DLX.search chainF searchF st
  build_grid_from_solution size colors res.2.solution

end DLXGen

/-- The observable attributes set by ColorSudoku.__init__ (core.py).
grid and solution are Option because the Dsatur generator can return
None, which Python stores as-is. -/
structure ColorSudokuState where
  size : Nat
  rank : Nat
  colors : List Color
  algorithm : String
  grid : Option Grid
  solution : Option Grid
  deriving DecidableEq

namespace ColorSudoku

/-- generate_sudoku from core.py: dispatch on the algorithm name; an
unknown name raises ValueError (embedded as Except.error). -/
def generate_sudoku_dispatch (size : Nat) (colors : List Color) (algorithm : String)
    (ordB ordM : ColorOrd) (chainF searchF : Nat) : Except String (Option Grid) :=
  if algorithm = "Backtracking" then .ok (some (Backtracking.generate_sudoku size ordB))
  else if algorithm = "MRV" then .ok (some (MRV.generate_sudoku size colors ordM))
  else if algorithm = "Dsatur" then .ok (DSATUR.generate_sudoku size colors)
  else if algorithm = "Knuth" then .ok (some (DLXGen.generate_sudoku size colors chainF searchF))
  else .error "Unknown algorithm selected!"

/-- ColorSudoku.__init__ from core.py.  Note that the colorsArg parameter
is accepted but never consulted: line 46 unconditionally assigns
self.colors = self.generate_colors().  No validation of size or colors is
performed.  ordB, ordM model the random.shuffle calls, shuffledCells the
shuffle of remove_colors, chainF and searchF the DLX fuels.  This variant
idealizes two crash paths of the real constructor (it stores a None grid
from the Dsatur generator as-is where Python raises TypeError copying it
into self.solution, and it builds the Knuth matrix with unchecked
writes where Python raises IndexError for non-perfect-square sizes);
initChk below models both crashes, and this unchecked variant is kept
only for facts insensitive to them, such as the colors argument being
ignored. -/
def init (size : Nat) (algorithm : String) (colorsArg : Option (List Color))
    (test : Bool) (ordB ordM : ColorOrd) (shuffledCells : List (Nat × Nat))
    (chainF searchF : Nat) : Except String ColorSudokuState :=
  let rank := rankOf size
  let colors := generate_colors size
  match generate_sudoku_dispatch size colors algorithm ordB ordM chainF searchF with
  | .error e => .error e
  | .ok grid =>
    let sol := grid
    if test then .ok ⟨size, rank, colors, algorithm, grid, sol⟩
    else
      let remove_count := 60 * (size * size) / 100
      .ok ⟨size, rank, colors, algorithm,
           grid.map (fun g => remove_colors g shuffledCells remove_count), sol⟩

end ColorSudoku

namespace DLXGen

end DLXGen

namespace ColorSudoku

end ColorSudoku

/-! Verification-layer definitions (predicates about grids and the DLX
arena used by the theorems below). -/

/-- Well-formed dimensions: size rows of size cells each. -/
def Dims (size : Nat) (g : Grid) : Prop :=
  g.length = size ∧ ∀ row ∈ g, row.length = size

/-- Every in-range cell is filled. -/
def CompleteG (size : Nat) (g : Grid) : Prop :=
  ∀ r < size, ∀ c < size, cell g r c ≠ none

/-- Every filled in-range cell passes the single-cell legality check. -/
def ConsistentG (size : Nat) (g : Grid) : Prop :=
  ∀ r < size, ∀ c < size, ∀ color : Color,
    cell g r c = some color → ColorSudoku.is_valid_placement size g r c color = true

/-- The color occurs nowhere in the three units of (row, col) (the cell
itself included). -/
def NoUnitColor (size : Nat) (g : Grid) (row col : Nat) (color : Color) : Prop :=
  ∀ p ∈ ColorSudoku.unitCells size row col, cell g p.1 p.2 ≠ some color

/-- Every filled cell's color belongs to the given color list. -/
def ColorsIn (colors : List Color) (g : Grid) : Prop :=
  ∀ r c : Nat, ∀ color : Color, cell g r c = some color → color ∈ colors

/-- Every unit of the grid (each row, each column, each box) holds
pairwise distinct cell values. -/
def UnitsAllDistinct (size : Nat) (g : Grid) : Prop :=
  (∀ row < size, ((ColorSudoku.rowUnit size row).map fun p => cell g p.1 p.2).Nodup) ∧
  (∀ col < size, ((ColorSudoku.colUnit size col).map fun p => cell g p.1 p.2).Nodup) ∧
  (∀ r < size, ∀ c < size,
    ((ColorSudoku.boxUnit size r c).map fun p => cell g p.1 p.2).Nodup)

/-- All cells at or after the raster cursor (row, col) are empty. -/
def EmptyFromRaster (size row col : Nat) (g : Grid) : Prop :=
  ∀ r c : Nat, r < size → c < size → (row < r ∨ (r = row ∧ col ≤ c)) → cell g r c = none

/-- Chain predicate on the DLX arena: following f from x visits exactly
the nodes of L (none of which is stop) and then reaches stop. -/
def isChainB (f : Nat → Nat) (stop : Nat) : Nat → List Nat → Bool
  | x, [] => x == stop
  | x, a :: L => a == x && !(x == stop) && isChainB f stop (f x) L

/-- Path predicate: following f from x through exactly the nodes of L
ends at y (L lists the visited nodes, starting with x). -/
def Links (f : Nat → Nat) : List Nat → Nat → Nat → Prop
  | [], x, y => x = y
  | a :: L, x, y => a = x ∧ Links f L (f x) y

/-- Fold of the single-node unlink of cover over a list of nodes. -/
def unlinkAll (L : List Nat) (s : DLXState) : DLXState :=
  L.foldl DLX.unlinkUD s

/-- Fold of the single-node relink of uncover over a list of nodes. -/
def relinkAll (L : List Nat) (s : DLXState) : DLXState :=
  L.foldl DLX.relinkUD s

/-- Node j sits correctly in its vertical ring: its neighbors point back. -/
def RingInvUD (s : DLXState) (j : Nat) : Prop :=
  s.down (s.up j) = j ∧ s.up (s.down j) = j

/-- The header-ring unlink performed by the first two lines of cover. -/
def hdrUnlink (s : DLXState) (c : Nat) : DLXState :=
  { s with left := Function.update s.left (s.right c) (s.left c),
           right := Function.update s.right (s.left c) (s.right c) }

/-- The header-ring relink performed by the last two lines of uncover. -/
def hdrRelink (s : DLXState) (c : Nat) : DLXState :=
  { s with left := Function.update s.left (s.right c) c,
           right := Function.update s.right (s.left c) c }

/-- The column class of a node: data nodes carry their column header id in
colOf, headers (and the root) keep the default 0 and are their own class. -/
def colClass (co : Nat → Nat) (x : Nat) : Nat := if co x = 0 then x else co x

/-- The up and down maps respect column classes (each vertical ring stays
inside one column). -/
def UDCompat (co : Nat → Nat) (t : DLXState) : Prop :=
  ∀ x, colClass co (t.up x) = colClass co x ∧ colClass co (t.down x) = colClass co x

/-- A concrete ten-node DLX arena (root 0, headers 1-3, data nodes 4-9
linking the 0-1 matrix 110 / 101 / 011), used as the C2 witness input. -/
def c2S : DLXState where
  up := fun y => if y = 1 then 6 else if y = 2 then 8 else if y = 3 then 9 else
    if y = 4 then 1 else if y = 5 then 2 else if y = 6 then 4 else if y = 7 then 3 else
    if y = 8 then 5 else if y = 9 then 7 else y
  down := fun y => if y = 1 then 4 else if y = 2 then 5 else if y = 3 then 7 else
    if y = 4 then 6 else if y = 5 then 8 else if y = 6 then 1 else if y = 7 then 9 else
    if y = 8 then 2 else if y = 9 then 3 else y
  left := fun y => if y = 0 then 3 else if y = 1 then 0 else if y = 2 then 1 else
    if y = 3 then 2 else if y = 4 then 5 else if y = 5 then 4 else if y = 6 then 7 else
    if y = 7 then 6 else if y = 8 then 9 else if y = 9 then 8 else y
  right := fun y => if y = 0 then 1 else if y = 1 then 2 else if y = 2 then 3 else
    if y = 3 then 0 else if y = 4 then 5 else if y = 5 then 4 else if y = 6 then 7 else
    if y = 7 then 6 else if y = 8 then 9 else if y = 9 then 8 else y
  colOf := fun y => if y = 4 then 1 else if y = 5 then 2 else if y = 6 then 1 else
    if y = 7 then 3 else if y = 8 then 2 else if y = 9 then 3 else 0
  rowOf := fun y => if y = 6 then 1 else if y = 7 then 1 else if y = 8 then 2 else
    if y = 9 then 2 else 0
  size := fun y => if y = 1 then 2 else if y = 2 then 2 else if y = 3 then 2 else 0
  solution := []

/-- The rowmate lists of the two column-1 nodes of c2S. -/
def c2RowL : Nat → List Nat := fun x => if x = 4 then [5] else if x = 6 then [7] else []

/-! Basic grid lemmas. -/

theorem cell_setCell_ne (g : Grid) (r c : Nat) (v : Option Color) {r' c' : Nat}
    (h : (r', c') ≠ (r, c)) : cell (setCell g r c v) r' c' = cell g r' c' := by
  unfold cell setCell
  by_cases hr : r' = r
  · subst hr
    have hc : c' ≠ c := fun hc => h (by rw [hc])
    by_cases hlen : r' < g.length
    · simp only [List.getD_eq_getElem?_getD, List.getElem?_set_self hlen, Option.getD_some,
        List.getElem?_set_ne (Ne.symm hc)]
    · have : g.set r' ((g.getD r' []).set c v) = g :=
        List.set_eq_of_length_le (Nat.le_of_not_lt hlen)
      rw [this]
  · simp only [List.getD_eq_getElem?_getD, List.getElem?_set_ne (fun hh => hr hh.symm)]

theorem cell_setCell_self (g : Grid) {r c : Nat} (v : Option Color)
    (hr : r < g.length) (hc : c < (g.getD r []).length) :
    cell (setCell g r c v) r c = v := by
  unfold cell setCell
  rw [List.getD_eq_getElem?_getD] at hc
  simp only [List.getD_eq_getElem?_getD, List.getElem?_set_self hr, Option.getD_some]
  simp only [List.getElem?_set_self hc, Option.getD_some]

theorem dims_emptyGrid (size : Nat) : Dims size (emptyGrid size) := by
  constructor
  · simp [emptyGrid]
  · intro row hrow
    rw [List.eq_of_mem_replicate hrow]
    simp

theorem dims_setCell {size : Nat} {g : Grid} (hd : Dims size g) (r c : Nat)
    (v : Option Color) : Dims size (setCell g r c v) := by
  obtain ⟨hlen, hrows⟩ := hd
  by_cases hr : r < g.length
  · constructor
    · simp [setCell, hlen]
    · intro row hrow
      rcases List.mem_or_eq_of_mem_set hrow with hmem | rfl
      · exact hrows row hmem
      · rw [List.length_set]
        have hg : g.getD r [] = g[r] := by
          simp [List.getElem?_eq_getElem hr]
        rw [hg]
        exact hrows _ (List.getElem_mem hr)
  · unfold setCell
    rw [List.set_eq_of_length_le (Nat.le_of_not_lt hr)]
    exact ⟨hlen, hrows⟩

theorem cell_setCell_self_of_dims {size : Nat} {g : Grid} (hd : Dims size g)
    {r c : Nat} (hr : r < size) (hc : c < size) (v : Option Color) :
    cell (setCell g r c v) r c = v := by
  obtain ⟨hlen, hrows⟩ := hd
  apply cell_setCell_self
  · omega
  · have hrl : r < g.length := by omega
    have : (g.getD r []).length = size := by
      have hg : g.getD r [] = g[r] := by
        simp [List.getElem?_eq_getElem hrl]
      rw [hg]
      exact hrows _ (List.getElem_mem hrl)
    omega

theorem cell_emptyGrid (size r c : Nat) : cell (emptyGrid size) r c = none := by
  unfold cell emptyGrid
  simp only [List.getD_eq_getElem?_getD, List.getElem?_replicate]
  by_cases hr : r < size <;> by_cases hc : c < size <;> simp [hr, hc]

theorem isqrtAux_eq {r n : Nat} (hr : Nat.sqrt n ≤ r) :
    ColorSudoku.isqrtAux r n = Nat.sqrt n := by
  induction r with
  | zero => simpa [ColorSudoku.isqrtAux] using (Nat.le_antisymm hr (Nat.zero_le _)).symm
  | succ r ih =>
    unfold ColorSudoku.isqrtAux
    by_cases h : (r + 1) * (r + 1) ≤ n
    · rw [if_pos h]
      exact (Nat.le_antisymm hr (Nat.le_sqrt.mpr h)).symm
    · rw [if_neg h]
      exact ih (by
        have := Nat.sqrt_lt.mpr (Nat.lt_of_not_le h)
        omega)

theorem rankOf_eq_sqrt (n : Nat) : ColorSudoku.rankOf n = Nat.sqrt n :=
  isqrtAux_eq (Nat.sqrt_le_self n)

/-! Characterization of the single-cell legality check. -/

theorem is_valid_placement_true_iff (size : Nat) (g : Grid) (row col : Nat) (color : Color) :
    ColorSudoku.is_valid_placement size g row col color = true ↔
      ∀ p ∈ ColorSudoku.unitCells size row col, p ≠ (row, col) → cell g p.1 p.2 ≠ some color := by
  unfold ColorSudoku.is_valid_placement ColorSudoku.unitCells ColorSudoku.rowUnit
    ColorSudoku.colUnit ColorSudoku.boxUnit
  simp only [Bool.and_eq_true, List.all_eq_true, List.mem_range, Bool.not_eq_true',
    Bool.and_eq_false_iff, List.mem_append, List.mem_map, List.mem_flatMap,
    bne_eq_false_iff_eq, beq_eq_false_iff_ne, ne_eq, Prod.mk.injEq]
  constructor
  · rintro ⟨hrc, hbox⟩ p hp hne
    rcases hp with (⟨i, hi, rfl⟩ | ⟨i, hi, rfl⟩) | ⟨i, hi, j, hj, rfl⟩
    · rcases (hrc i hi).1 with heq | hcell
      · exact absurd (by rw [heq]) hne
      · exact hcell
    · rcases (hrc i hi).2 with heq | hcell
      · exact absurd (by rw [heq]) hne
      · exact hcell
    · rcases hbox i hi j hj with ⟨h1, h2⟩ | hcell
      · exact absurd (by rw [h1, h2]) hne
      · exact hcell
  · intro h
    refine ⟨fun i hi => ⟨?_, ?_⟩, fun i hi j hj => ?_⟩
    · by_cases hic : i = col
      · exact Or.inl hic
      · exact Or.inr (h (row, i) (Or.inl (Or.inl ⟨i, hi, rfl⟩)) (by simp [hic]))
    · by_cases hir : i = row
      · exact Or.inl hir
      · exact Or.inr (h (i, col) (Or.inl (Or.inr ⟨i, hi, rfl⟩)) (by simp [hir]))
    · by_cases heq : (row / ColorSudoku.rankOf size * ColorSudoku.rankOf size + i,
          col / ColorSudoku.rankOf size * ColorSudoku.rankOf size + j) = ((row : Nat), col)
      · rw [Prod.mk.injEq] at heq
        exact Or.inl heq
      · exact Or.inr (h _ (Or.inr ⟨i, hi, j, hj, rfl⟩) heq)

/-- Claim C5: is_valid_placement returns false if and only if the color
already occurs at some cell other than (row, col) within the row unit,
the column unit, or the box unit containing (row, col); the cell under
test is excluded from the conflict scan.  (The embedding is a pure
function of the grid, so the absence of side effects is by construction.) -/
theorem C5_is_valid_placement_false_iff (size : Nat) (g : Grid) (row col : Nat) (color : Color) :
    ColorSudoku.is_valid_placement size g row col color = false ↔
      ∃ p ∈ ColorSudoku.unitCells size row col, p ≠ (row, col) ∧ cell g p.1 p.2 = some color := by
  rw [Bool.eq_false_iff, ne_eq, is_valid_placement_true_iff]
  push_neg
  rfl

/-- Claim C10: set_user_color writes the color only when cell (row, col)
is empty; a filled cell leaves the whole grid unchanged, and no cell
other than (row, col) is ever modified. -/
theorem C10_set_user_color_frame (g : Grid) (row col : Nat) (color : Color)
    (hrow : row < g.length) (hcol : col < (g.getD row []).length) :
    (cell g row col ≠ none → ColorSudoku.set_user_color g row col color = g) ∧
    (cell g row col = none →
      cell (ColorSudoku.set_user_color g row col color) row col = some color) ∧
    (∀ r c : Nat, (r, c) ≠ (row, col) →
      cell (ColorSudoku.set_user_color g row col color) r c = cell g r c) := by
  refine ⟨fun hfill => ?_, fun hempty => ?_, fun r c hne => ?_⟩
  · unfold ColorSudoku.set_user_color
    simp [hfill]
  · unfold ColorSudoku.set_user_color
    rw [if_pos hempty]
    exact cell_setCell_self g _ hrow hcol
  · unfold ColorSudoku.set_user_color
    split
    · exact cell_setCell_ne g row col _ hne
    · rfl

/-- Witness for C10 on a concrete 2 x 2 grid at cell (0, 1). -/
theorem C10_set_user_color_frame_witness :
    (cell [[none, some "red"], [none, none]] 0 1 ≠ none →
      ColorSudoku.set_user_color [[none, some "red"], [none, none]] 0 1 "blue" =
        [[none, some "red"], [none, none]]) ∧
    (cell [[none, some "red"], [none, none]] 0 1 = none →
      cell (ColorSudoku.set_user_color [[none, some "red"], [none, none]] 0 1 "blue") 0 1 =
        some "blue") ∧
    (∀ r c : Nat, (r, c) ≠ (0, 1) →
      cell (ColorSudoku.set_user_color [[none, some "red"], [none, none]] 0 1 "blue") r c =
        cell [[none, some "red"], [none, none]] r c) :=
  C10_set_user_color_frame [[none, some "red"], [none, none]] 0 1 "blue" (by decide) (by decide)

/-- Claim C9 (amended): the colors argument of the constructor has no
effect (core.py line 46 replaces it with generate_colors()); the color
set equals the first rank * rank entries of the built-in 16-color list,
which is the first size entries exactly when size is a perfect square;
and for size above 16 the color set has fewer than size entries. -/
theorem C9_colors_argument_ignored :
    (∀ (size : Nat) (algorithm : String) (c1 c2 : Option (List Color)) (test : Bool)
      (ordB ordM : ColorOrd) (sc : List (Nat × Nat)) (cF sF : Nat),
      ColorSudoku.init size algorithm c1 test ordB ordM sc cF sF =
      ColorSudoku.init size algorithm c2 test ordB ordM sc cF sF) ∧
    (∀ r : Nat, ColorSudoku.generate_colors (r * r) = ColorSudoku.base_colors.take (r * r)) ∧
    (∀ size : Nat, 16 < size → (ColorSudoku.generate_colors size).length < size) := by
  refine ⟨fun _ _ _ _ _ _ _ _ _ _ => rfl, fun r => ?_, fun size hsize => ?_⟩
  · unfold ColorSudoku.generate_colors
    rw [rankOf_eq_sqrt, Nat.sqrt_eq]
  · unfold ColorSudoku.generate_colors
    rw [List.length_take]
    have : ColorSudoku.base_colors.length = 16 := rfl
    omega

/-- Witness for C9: the bounded-color-set conjunct applied at size 25. -/
theorem C9_colors_argument_ignored_witness :
    (ColorSudoku.generate_colors 25).length < 25 :=
  C9_colors_argument_ignored.2.2 25 (by decide)

/-- Counterexample to C9 as stated: for size 7 (rank 2) the color set is
the first 4 entries of the built-in list, not the first 7. -/
theorem C9_counterexample :
    ColorSudoku.generate_colors 7 ≠ ColorSudoku.base_colors.take 7 := by
  intro h
  have hlen := congrArg List.length h
  have h4 : (ColorSudoku.generate_colors 7).length = 4 := rfl
  have h7 : (ColorSudoku.base_colors.take 7).length = 7 := rfl
  omega

theorem gen_is_valid_true_iff (size : Nat) (g : Grid) (row col : Nat) (color : Color) :
    gen_is_valid size g row col color = true ↔ NoUnitColor size g row col color := by
  unfold gen_is_valid NoUnitColor ColorSudoku.unitCells ColorSudoku.rowUnit
    ColorSudoku.colUnit ColorSudoku.boxUnit
  simp only [Bool.and_eq_true, List.all_eq_true, List.mem_range, Bool.not_eq_true',
    beq_eq_false_iff_ne, ne_eq, List.mem_append, List.mem_map, List.mem_flatMap]
  constructor
  · rintro ⟨hrc, hbox⟩ p hp
    rcases hp with (⟨i, hi, rfl⟩ | ⟨i, hi, rfl⟩) | ⟨i, hi, j, hj, rfl⟩
    · exact (hrc i hi).1
    · exact (hrc i hi).2
    · exact hbox i hi j hj
  · intro h
    refine ⟨fun i hi => ⟨?_, ?_⟩, fun i hi j hj => ?_⟩
    · exact h (row, i) (Or.inl (Or.inl ⟨i, hi, rfl⟩))
    · exact h (i, col) (Or.inl (Or.inr ⟨i, hi, rfl⟩))
    · exact h _ (Or.inr ⟨i, hi, j, hj, rfl⟩)

theorem mem_boxUnit_iff {size : Nat} (hbs : 0 < ColorSudoku.rankOf size)
    {row col a b : Nat} :
    (a, b) ∈ ColorSudoku.boxUnit size row col ↔
      a / ColorSudoku.rankOf size = row / ColorSudoku.rankOf size ∧
      b / ColorSudoku.rankOf size = col / ColorSudoku.rankOf size := by
  set bs := ColorSudoku.rankOf size with hbsdef
  unfold ColorSudoku.boxUnit
  simp only [List.mem_flatMap, List.mem_map, List.mem_range, Prod.mk.injEq, ← hbsdef]
  constructor
  · rintro ⟨i, hi, j, hj, rfl, rfl⟩
    constructor
    · rw [Nat.add_comm, Nat.add_mul_div_right _ _ hbs, Nat.div_eq_of_lt hi]
      omega
    · rw [Nat.add_comm, Nat.add_mul_div_right _ _ hbs, Nat.div_eq_of_lt hj]
      omega
  · rintro ⟨ha, hb⟩
    refine ⟨a % bs, Nat.mod_lt _ hbs, b % bs, Nat.mod_lt _ hbs, ?_, ?_⟩
    · rw [← ha, Nat.mul_comm (a / bs) bs]
      exact Nat.div_add_mod a bs
    · rw [← hb, Nat.mul_comm (b / bs) bs]
      exact Nat.div_add_mod b bs

theorem mem_rowUnit_iff {size row a b : Nat} :
    (a, b) ∈ ColorSudoku.rowUnit size row ↔ a = row ∧ b < size := by
  unfold ColorSudoku.rowUnit
  simp only [List.mem_map, List.mem_range]
  constructor
  · rintro ⟨i, hi, heq⟩
    cases heq
    exact ⟨rfl, hi⟩
  · rintro ⟨rfl, hb⟩
    exact ⟨b, hb, rfl⟩

theorem mem_colUnit_iff {size col a b : Nat} :
    (a, b) ∈ ColorSudoku.colUnit size col ↔ a < size ∧ b = col := by
  unfold ColorSudoku.colUnit
  simp only [List.mem_map, List.mem_range]
  constructor
  · rintro ⟨i, hi, heq⟩
    cases heq
    exact ⟨hi, rfl⟩
  · rintro ⟨ha, rfl⟩
    exact ⟨a, ha, rfl⟩

theorem mem_unitCells_iff {size : Nat} (hbs : 0 < ColorSudoku.rankOf size) {row col a b : Nat} :
    (a, b) ∈ ColorSudoku.unitCells size row col ↔
      (a = row ∧ b < size) ∨ (a < size ∧ b = col) ∨
      (a / ColorSudoku.rankOf size = row / ColorSudoku.rankOf size ∧
       b / ColorSudoku.rankOf size = col / ColorSudoku.rankOf size) := by
  unfold ColorSudoku.unitCells
  rw [List.mem_append, List.mem_append, mem_rowUnit_iff, mem_colUnit_iff, mem_boxUnit_iff hbs]
  tauto

theorem mem_unitCells_symm {size : Nat} (hbs : 0 < ColorSudoku.rankOf size)
    {row col a b : Nat} (ha : a < size) (hb : b < size) (hrow : row < size) (hcol : col < size) :
    (a, b) ∈ ColorSudoku.unitCells size row col ↔
      (row, col) ∈ ColorSudoku.unitCells size a b := by
  rw [mem_unitCells_iff hbs, mem_unitCells_iff hbs]
  constructor
  · rintro (⟨rfl, -⟩ | ⟨-, rfl⟩ | ⟨h1, h2⟩)
    · exact Or.inl ⟨rfl, hcol⟩
    · exact Or.inr (Or.inl ⟨hrow, rfl⟩)
    · exact Or.inr (Or.inr ⟨h1.symm, h2.symm⟩)
  · rintro (⟨heq, -⟩ | ⟨-, heq⟩ | ⟨h1, h2⟩)
    · exact Or.inl ⟨heq.symm, hb⟩
    · exact Or.inr (Or.inl ⟨ha, heq.symm⟩)
    · exact Or.inr (Or.inr ⟨h1.symm, h2.symm⟩)

theorem mem_unitCells_lt {size : Nat}
    (hsq : ColorSudoku.rankOf size * ColorSudoku.rankOf size = size) {row col a b : Nat}
    (hrow : row < size) (hcol : col < size)
    (h : (a, b) ∈ ColorSudoku.unitCells size row col) : a < size ∧ b < size := by
  have hb0 : 0 < ColorSudoku.rankOf size := by
    rcases Nat.eq_zero_or_pos (ColorSudoku.rankOf size) with h0 | h0
    · rw [h0] at hsq
      omega
    · exact h0
  rw [mem_unitCells_iff hb0] at h
  set bs := ColorSudoku.rankOf size with hbs
  rcases h with ⟨rfl, hb⟩ | ⟨ha, rfl⟩ | ⟨h1, h2⟩
  · exact ⟨hrow, hb⟩
  · exact ⟨ha, hcol⟩
  · have hr : row / bs < bs := Nat.div_lt_of_lt_mul (by omega)
    have hc : col / bs < bs := Nat.div_lt_of_lt_mul (by omega)
    constructor
    · calc a = bs * (a / bs) + a % bs := (Nat.div_add_mod a bs).symm
        _ = bs * (row / bs) + a % bs := by rw [h1]
        _ < bs * (row / bs) + bs := Nat.add_lt_add_left (Nat.mod_lt _ hb0) _
        _ = bs * (row / bs + 1) := by rw [Nat.mul_add, Nat.mul_one]
        _ ≤ bs * bs := Nat.mul_le_mul_left bs hr
        _ = size := hsq
    · calc b = bs * (b / bs) + b % bs := (Nat.div_add_mod b bs).symm
        _ = bs * (col / bs) + b % bs := by rw [h2]
        _ < bs * (col / bs) + bs := Nat.add_lt_add_left (Nat.mod_lt _ hb0) _
        _ = bs * (col / bs + 1) := by rw [Nat.mul_add, Nat.mul_one]
        _ ≤ bs * bs := Nat.mul_le_mul_left bs hc
        _ = size := hsq

theorem consistentG_emptyGrid (size : Nat) : ConsistentG size (emptyGrid size) := by
  intro r _ c _ color hcell
  rw [cell_emptyGrid] at hcell
  cases hcell

theorem consistent_place {size : Nat} {g : Grid} {row col : Nat} {c : Color}
    (hsq : ColorSudoku.rankOf size * ColorSudoku.rankOf size = size)
    (hd : Dims size g) (hrow : row < size) (hcol : col < size)
    (hnoc : NoUnitColor size g row col c) (hcons : ConsistentG size g) :
    ConsistentG size (setCell g row col (some c)) := by
  have hb0 : 0 < ColorSudoku.rankOf size := by
    rcases Nat.eq_zero_or_pos (ColorSudoku.rankOf size) with h0 | h0
    · rw [h0] at hsq
      omega
    · exact h0
  intro r hr c' hc' color hcell
  by_cases htgt : (r, c') = (row, col)
  · rw [Prod.mk.injEq] at htgt
    obtain ⟨rfl, rfl⟩ := htgt
    rw [cell_setCell_self_of_dims hd hrow hcol] at hcell
    injection hcell with hceq
    subst hceq
    rw [is_valid_placement_true_iff]
    intro p hp hne
    rw [cell_setCell_ne g r c' _ hne]
    exact hnoc p hp
  · have hcell0 : cell g r c' = some color := by
      rw [← cell_setCell_ne g row col (some c) htgt]
      exact hcell
    have hvalid0 := hcons r hr c' hc' color hcell0
    rw [is_valid_placement_true_iff] at hvalid0 ⊢
    intro p hp hne
    by_cases hpt : p = (row, col)
    · subst hpt
      rw [cell_setCell_self_of_dims hd hrow hcol]
      intro hcc
      cases hcc
      have hmem : (r, c') ∈ ColorSudoku.unitCells size row col := by
        rw [mem_unitCells_symm hb0 hr hc' hrow hcol]
        exact hp
      exact hnoc (r, c') hmem hcell0
    · rw [cell_setCell_ne g row col _ hpt]
      exact hvalid0 p hp hne

theorem is_valid_placement_mono {size : Nat} {g g' : Grid} {r c : Nat} {color : Color}
    (hsub : ∀ p : Nat × Nat, cell g' p.1 p.2 = cell g p.1 p.2 ∨ cell g' p.1 p.2 = none)
    (h : ColorSudoku.is_valid_placement size g r c color = true) :
    ColorSudoku.is_valid_placement size g' r c color = true := by
  rw [is_valid_placement_true_iff] at h ⊢
  intro p hp hne hcell
  rcases hsub p with heq | hnone
  · exact h p hp hne (heq ▸ hcell)
  · rw [hnone] at hcell
    cases hcell

theorem set_getElem_self_list {g : Grid} {r : Nat} (hr : r < g.length) :
    g.set r g[r] = g := by
  apply List.ext_getElem?
  intro n
  by_cases hn : r = n
  · subst hn
    rw [List.getElem?_set_self (by exact hr), List.getElem?_eq_getElem hr]
  · rw [List.getElem?_set_ne hn]

theorem setCell_none_cases (g : Grid) (r c : Nat) :
    cell (setCell g r c none) r c = none ∨ setCell g r c none = g := by
  by_cases hr : r < g.length
  · by_cases hc : c < (g.getD r []).length
    · exact Or.inl (cell_setCell_self g none hr hc)
    · right
      unfold setCell
      rw [List.set_eq_of_length_le (Nat.le_of_not_lt hc)]
      have hg : g.getD r [] = g[r] := by
        simp [List.getElem?_eq_getElem hr]
      rw [hg, set_getElem_self_list hr]
  · right
    unfold setCell
    exact List.set_eq_of_length_le (Nat.le_of_not_lt hr)

theorem consistent_clear {size : Nat} {g : Grid} (row col : Nat)
    (hcons : ConsistentG size g) : ConsistentG size (setCell g row col none) := by
  rcases setCell_none_cases g row col with hnone | hid
  · intro r hr c hc color hcell
    have hsub : ∀ p : Nat × Nat,
        cell (setCell g row col none) p.1 p.2 = cell g p.1 p.2 ∨
        cell (setCell g row col none) p.1 p.2 = none := by
      intro p
      by_cases hpt : p = (row, col)
      · subst hpt
        exact Or.inr hnone
      · exact Or.inl (cell_setCell_ne g row col none hpt)
    have hcell0 : cell g r c = some color := by
      rcases hsub (r, c) with heq | hn
      · rw [← heq]
        exact hcell
      · rw [hn] at hcell
        cases hcell
    exact is_valid_placement_mono hsub (hcons r hr c hc color hcell0)
  · rw [hid]
    exact hcons

theorem is_valid_solution_of_complete_consistent {size : Nat} {g : Grid}
    (hcomp : CompleteG size g) (hcons : ConsistentG size g) :
    ColorSudoku.is_valid_solution size g = true := by
  unfold ColorSudoku.is_valid_solution
  simp only [List.all_eq_true, List.mem_range]
  intro r hr c hc
  cases hcell : cell g r c with
  | none => exact absurd hcell (hcomp r hr c hc)
  | some color => exact hcons r hr c hc color hcell

theorem foldl_invariant {α β : Type} {C : β → Prop} (op : β → α → β) (l : List α) (b : β)
    (hb : C b) (hstep : ∀ x ∈ l, ∀ acc, C acc → C (op acc x)) : C (l.foldl op b) := by
  induction l generalizing b with
  | nil => exact hb
  | cons a l ih =>
    exact ih (op b a) (hstep a (by simp) b hb)
      (fun x hx acc hacc => hstep x (by simp [hx]) acc hacc)

theorem tryColors_out {size : Nat} {row col : Nat}
    (hsq : ColorSudoku.rankOf size * ColorSudoku.rankOf size = size)
    (hrow : row < size) (hcol : col < size) (recur : Grid → Bool × Grid)
    (hrec : ∀ h : Grid, Dims size h → ConsistentG size h →
      Dims size (recur h).2 ∧ ConsistentG size (recur h).2) :
    ∀ (cs : List Color) (g : Grid), Dims size g → ConsistentG size g →
      Dims size (tryColors size recur row col cs g).2 ∧
      ConsistentG size (tryColors size recur row col cs g).2 := by
  intro cs
  induction cs with
  | nil => intro g hd hc; exact ⟨hd, hc⟩
  | cons c rest ih =>
    intro g hd hc
    simp only [tryColors]
    by_cases hv : gen_is_valid size g row col c = true
    · rw [if_pos hv]
      have hnoc : NoUnitColor size g row col c := (gen_is_valid_true_iff size g row col c).mp hv
      have hd1 := dims_setCell hd row col (some c)
      have hc1 := consistent_place hsq hd hrow hcol hnoc hc
      obtain ⟨hd2, hc2⟩ := hrec (setCell g row col (some c)) hd1 hc1
      cases hres : recur (setCell g row col (some c)) with
      | mk b g2 =>
        rw [hres] at hd2 hc2
        cases b
        · exact ih (setCell g2 row col none) (dims_setCell hd2 row col none)
            (consistent_clear row col hc2)
        · exact ⟨hd2, hc2⟩
    · rw [if_neg hv]
      exact ih g hd hc

theorem bt_solve_out (size : Nat) (ord : ColorOrd)
    (hsq : ColorSudoku.rankOf size * ColorSudoku.rankOf size = size) :
    ∀ (fuel : Nat) (g : Grid) (row col : Nat), row ≤ size → col ≤ size →
      Dims size g → ConsistentG size g →
      Dims size (Backtracking.solve size ord fuel g row col).2 ∧
      ConsistentG size (Backtracking.solve size ord fuel g row col).2 := by
  intro fuel
  induction fuel with
  | zero => intro g row col _ _ hd hc; exact ⟨hd, hc⟩
  | succ f ih =>
    intro g row col hr hc hd hcons
    simp only [Backtracking.solve]
    by_cases hrs : row = size
    · rw [if_pos hrs]
      exact ⟨hd, hcons⟩
    · rw [if_neg hrs]
      by_cases hcs : col = size
      · rw [if_pos hcs]
        exact ih g (row + 1) 0 (by omega) (by omega) hd hcons
      · rw [if_neg hcs]
        exact tryColors_out hsq (by omega) (by omega) _
          (fun h hdh hch => ih h row (col + 1) (by omega) (by omega) hdh hch)
          (ord row col g) g hd hcons

theorem foldl_invariant_eq {α β : Type} {C : β → Prop} {op : β → α → β} {l : List α}
    {b res : β} (h : l.foldl op b = res) (hb : C b)
    (hstep : ∀ x ∈ l, ∀ acc, C acc → C (op acc x)) : C res :=
  h ▸ foldl_invariant op l b hb hstep

theorem mrv_cell_lt {size : Nat} {colors : List Color} {g : Grid} {r c : Nat}
    (h : MRV.get_least_remaining_values_cell size colors g = some (r, c)) :
    r < size ∧ c < size ∧ cell g r c = none := by
  unfold MRV.get_least_remaining_values_cell at h
  rw [Option.map_eq_some'] at h
  obtain ⟨⟨p, k⟩, hfold, hp⟩ := h
  have key := foldl_invariant_eq
    (C := fun acc : Option ((Nat × Nat) × Nat) =>
      ∀ q m, acc = some (q, m) → q.1 < size ∧ q.2 < size ∧ cell g q.1 q.2 = none)
    hfold (by intro q m hq; cases hq) ?step
  · have hp2 : p = (r, c) := hp
    have hbounds := key p k rfl
    rw [hp2] at hbounds
    exact hbounds
  case step =>
    intro row hrowmem acc hacc
    rw [List.mem_range] at hrowmem
    refine foldl_invariant_eq (C := fun acc2 : Option ((Nat × Nat) × Nat) =>
      ∀ q m, acc2 = some (q, m) → q.1 < size ∧ q.2 < size ∧ cell g q.1 q.2 = none)
      rfl hacc ?_
    intro col hcolmem acc2 hacc2
    intro q m hq
    rw [List.mem_range] at hcolmem
    by_cases hcell : cell g row col = none
    · rw [if_pos hcell] at hq
      cases acc2 with
      | none =>
        injection hq with hq2
        injection hq2 with hq3 _
        rw [← hq3]
        exact ⟨hrowmem, hcolmem, hcell⟩
      | some a =>
        obtain ⟨p', m'⟩ := a
        dsimp only at hq
        split at hq
        · injection hq with hq2
          injection hq2 with hq3 _
          rw [← hq3]
          exact ⟨hrowmem, hcolmem, hcell⟩
        · exact hacc2 q m hq
    · rw [if_neg hcell] at hq
      exact hacc2 q m hq

theorem mrv_solve_out (size : Nat) (colors : List Color) (ord : ColorOrd)
    (hsq : ColorSudoku.rankOf size * ColorSudoku.rankOf size = size) :
    ∀ (fuel : Nat) (g : Grid), Dims size g → ConsistentG size g →
      Dims size (MRV.solve size colors ord fuel g).2 ∧
      ConsistentG size (MRV.solve size colors ord fuel g).2 := by
  intro fuel
  induction fuel with
  | zero => intro g hd hc; exact ⟨hd, hc⟩
  | succ f ih =>
    intro g hd hcons
    simp only [MRV.solve]
    cases hcell : MRV.get_least_remaining_values_cell size colors g with
    | none => exact ⟨hd, hcons⟩
    | some rc =>
      obtain ⟨row, col⟩ := rc
      obtain ⟨hrow, hcol, -⟩ := mrv_cell_lt hcell
      exact tryColors_out hsq hrow hcol _ (fun h hdh hch => ih h hdh hch)
        (ord row col g) g hd hcons

theorem mem_unassigned_iff {size : Nat} {g : Grid} {p : Nat × Nat} :
    p ∈ DSATUR.unassigned_cells size g ↔
      p.1 < size ∧ p.2 < size ∧ cell g p.1 p.2 = none := by
  unfold DSATUR.unassigned_cells
  rw [List.mem_filter]
  simp only [List.mem_flatMap, List.mem_map, List.mem_range, decide_eq_true_eq]
  constructor
  · rintro ⟨⟨r, hr, c, hc, rfl⟩, hcell⟩
    exact ⟨hr, hc, hcell⟩
  · rintro ⟨h1, h2, h3⟩
    exact ⟨⟨p.1, h1, p.2, h2, rfl⟩, h3⟩

theorem most_saturated_some {size : Nat} {g : Grid} {r c : Nat}
    (h : DSATUR.get_most_saturated_cell size g = some (r, c)) :
    r < size ∧ c < size ∧ cell g r c = none := by
  unfold DSATUR.get_most_saturated_cell at h
  have key := foldl_invariant_eq
    (C := fun acc : Option (Nat × Nat) =>
      ∀ q, acc = some q → q.1 < size ∧ q.2 < size ∧ cell g q.1 q.2 = none)
    h (by intro q hq; cases hq) ?step
  · exact key (r, c) rfl
  case step =>
    intro x hx acc hacc q hq
    have hxp := mem_unassigned_iff.mp hx
    cases acc with
    | none =>
      injection hq with hq2
      rw [← hq2]
      exact hxp
    | some a =>
      dsimp only at hq
      split at hq
      · injection hq with hq2
        rw [← hq2]
        exact hxp
      · exact hacc q hq

theorem most_saturated_none_complete {size : Nat} {g : Grid}
    (h : DSATUR.get_most_saturated_cell size g = none) : CompleteG size g := by
  have hsome : ∀ (l : List (Nat × Nat)) (q : Nat × Nat),
      (l.foldl (fun acc p =>
        match acc with
        | none => some p
        | some q' => if DSATUR.get_saturation size g q' < DSATUR.get_saturation size g p
            then some p else acc) (some q)) ≠ none := by
    intro l
    induction l with
    | nil => intro q hq; cases hq
    | cons x l ih =>
      intro q
      simp only [List.foldl_cons]
      split
      · exact ih x
      · exact ih q
  have hlist : DSATUR.unassigned_cells size g = [] := by
    cases hl : DSATUR.unassigned_cells size g with
    | nil => rfl
    | cons x l =>
      unfold DSATUR.get_most_saturated_cell at h
      rw [hl] at h
      simp only [List.foldl_cons] at h
      exact absurd h (hsome l x)
  intro r hr c hc hcell
  have : (r, c) ∈ DSATUR.unassigned_cells size g :=
    mem_unassigned_iff.mpr ⟨hr, hc, hcell⟩
  rw [hlist] at this
  cases this

theorem mem_get_neighbors_iff {size row col : Nat} {p : Nat × Nat} :
    p ∈ DSATUR.get_neighbors size row col ↔
      p ∈ ColorSudoku.unitCells size row col ∧ p ≠ (row, col) := by
  unfold DSATUR.get_neighbors ColorSudoku.unitCells ColorSudoku.rowUnit
    ColorSudoku.colUnit ColorSudoku.boxUnit
  rw [List.mem_filter]
  simp only [List.mem_append, List.mem_flatMap, List.mem_map, List.mem_range,
    List.mem_cons, List.not_mem_nil, or_false, decide_eq_true_eq]
  constructor
  · rintro ⟨⟨i, hi, heq | heq⟩ | ⟨i, hi, j, hj, heq⟩, hne⟩
    · exact ⟨Or.inl (Or.inl ⟨i, hi, heq.symm⟩), hne⟩
    · exact ⟨Or.inl (Or.inr ⟨i, hi, heq.symm⟩), hne⟩
    · exact ⟨Or.inr ⟨i, hi, j, hj, heq⟩, hne⟩
  · rintro ⟨(⟨i, hi, heq⟩ | ⟨i, hi, heq⟩) | ⟨i, hi, j, hj, heq⟩, hne⟩
    · exact ⟨Or.inl ⟨i, hi, Or.inl heq.symm⟩, hne⟩
    · exact ⟨Or.inl ⟨i, hi, Or.inr heq.symm⟩, hne⟩
    · exact ⟨Or.inr ⟨i, hi, j, hj, heq⟩, hne⟩

theorem assign_color_spec {size : Nat} {colors : List Color} {g : Grid} {row col : Nat}
    {c : Color} (hempty : cell g row col = none)
    (h : DSATUR.assign_color size colors g row col = some c) :
    c ∈ colors ∧ NoUnitColor size g row col c := by
  unfold DSATUR.assign_color at h
  rw [List.head?_eq_some_iff] at h
  obtain ⟨ys, hys⟩ := h
  have hcmem : c ∈ colors.filter
      fun c => !((DSATUR.neighbor_colors size g row col).contains c) := by
    rw [hys]
    exact List.mem_cons_self _ _
  rw [List.mem_filter] at hcmem
  obtain ⟨hmem, hpred⟩ := hcmem
  refine ⟨hmem, ?_⟩
  intro p hp hcell
  by_cases hps : p = (row, col)
  · subst hps
    rw [hempty] at hcell
    cases hcell
  · have hpn : p ∈ DSATUR.get_neighbors size row col :=
      mem_get_neighbors_iff.mpr ⟨hp, hps⟩
    have hcn : c ∈ DSATUR.neighbor_colors size g row col := by
      unfold DSATUR.neighbor_colors
      exact List.mem_filterMap.mpr ⟨p, hpn, hcell⟩
    rw [Bool.not_eq_true'] at hpred
    have : (DSATUR.neighbor_colors size g row col).contains c = true :=
      List.contains_iff_exists_mem_beq.mpr ⟨c, hcn, by simp⟩
    rw [hpred] at this
    cases this

theorem setCell_self_cases (g : Grid) (r c : Nat) (v : Option Color) :
    cell (setCell g r c v) r c = v ∨ setCell g r c v = g := by
  by_cases hr : r < g.length
  · by_cases hc : c < (g.getD r []).length
    · exact Or.inl (cell_setCell_self g v hr hc)
    · right
      unfold setCell
      rw [List.set_eq_of_length_le (Nat.le_of_not_lt hc)]
      have hg : g.getD r [] = g[r] := by
        simp [List.getElem?_eq_getElem hr]
      rw [hg, set_getElem_self_list hr]
  · right
    unfold setCell
    exact List.set_eq_of_length_le (Nat.le_of_not_lt hr)

theorem colorsIn_emptyGrid (colors : List Color) (size : Nat) :
    ColorsIn colors (emptyGrid size) := by
  intro r c color hcell
  rw [cell_emptyGrid] at hcell
  cases hcell

theorem colorsIn_setCell {colors : List Color} {g : Grid} {c : Color}
    (hci : ColorsIn colors g) (hc : c ∈ colors) (row col : Nat) :
    ColorsIn colors (setCell g row col (some c)) := by
  intro r' c' color hcell
  by_cases hpt : (r', c') = (row, col)
  · rw [Prod.mk.injEq] at hpt
    obtain ⟨rfl, rfl⟩ := hpt
    rcases setCell_self_cases g r' c' (some c) with hself | hid
    · rw [hself] at hcell
      injection hcell with h2
      rw [← h2]
      exact hc
    · rw [hid] at hcell
      exact hci r' c' color hcell
  · rw [cell_setCell_ne g row col _ hpt] at hcell
    exact hci r' c' color hcell

theorem dsatur_loop_out (size : Nat) (colors : List Color)
    (hsq : ColorSudoku.rankOf size * ColorSudoku.rankOf size = size) :
    ∀ (fuel : Nat) (g gout : Grid), Dims size g → ConsistentG size g → ColorsIn colors g →
      DSATUR.loop size colors fuel g = some gout →
      Dims size gout ∧ ConsistentG size gout ∧ CompleteG size gout ∧ ColorsIn colors gout := by
  intro fuel
  induction fuel with
  | zero => intro g gout _ _ _ h; cases h
  | succ f ih =>
    intro g gout hd hc hci h
    simp only [DSATUR.loop] at h
    cases hms : DSATUR.get_most_saturated_cell size g with
    | none =>
      rw [hms] at h
      injection h with h2
      subst h2
      exact ⟨hd, hc, most_saturated_none_complete hms, hci⟩
    | some rc =>
      obtain ⟨row, col⟩ := rc
      rw [hms] at h
      dsimp only at h
      obtain ⟨hrow, hcol, hempty⟩ := most_saturated_some hms
      cases hass : DSATUR.assign_color size colors g row col with
      | none =>
        rw [hass] at h
        cases h
      | some c =>
        rw [hass] at h
        obtain ⟨hcin, hnoc⟩ := assign_color_spec hempty hass
        exact ih (setCell g row col (some c)) gout (dims_setCell hd row col _)
          (consistent_place hsq hd hrow hcol hnoc hc)
          (colorsIn_setCell hci hcin row col) h

theorem complete_consistent_of_valid {size : Nat} {g : Grid}
    (h : ColorSudoku.is_valid_solution size g = true) :
    CompleteG size g ∧ ConsistentG size g := by
  unfold ColorSudoku.is_valid_solution at h
  simp only [List.all_eq_true, List.mem_range] at h
  constructor
  · intro r hr c hc hcell
    have := h r hr c hc
    rw [hcell] at this
    cases this
  · intro r hr c hc color hcell
    have := h r hr c hc
    rw [hcell] at this
    exact this

theorem unit_map_nodup {size : Nat} {g : Grid} (hcomp : CompleteG size g)
    (hcons : ConsistentG size g) {u : List (Nat × Nat)} (hu : u.Nodup)
    (hrange : ∀ p ∈ u, p.1 < size ∧ p.2 < size)
    (hin : ∀ p ∈ u, ∀ q ∈ u, p ≠ q → q ∈ ColorSudoku.unitCells size p.1 p.2) :
    (u.map fun p => cell g p.1 p.2).Nodup := by
  refine List.Nodup.map_on ?_ hu
  intro p hp q hq heq
  by_contra hne
  obtain ⟨hp1, hp2⟩ := hrange p hp
  cases hcellp : cell g p.1 p.2 with
  | none => exact hcomp p.1 hp1 p.2 hp2 hcellp
  | some cp =>
    have hvalid := hcons p.1 hp1 p.2 hp2 cp hcellp
    rw [is_valid_placement_true_iff] at hvalid
    have hqmem : q ∈ ColorSudoku.unitCells size p.1 p.2 := hin p hp q hq hne
    have hqcell : cell g q.1 q.2 = some cp := by
      rw [← heq]
      exact hcellp
    exact hvalid q hqmem (fun hh => hne hh.symm) hqcell

theorem rowUnit_nodup (size row : Nat) : (ColorSudoku.rowUnit size row).Nodup := by
  unfold ColorSudoku.rowUnit
  refine List.Nodup.map ?_ (List.nodup_range _)
  intro a b h
  injection h

theorem colUnit_nodup (size col : Nat) : (ColorSudoku.colUnit size col).Nodup := by
  unfold ColorSudoku.colUnit
  refine List.Nodup.map ?_ (List.nodup_range _)
  intro a b h
  injection h

theorem boxUnit_nodup (size r c : Nat) : (ColorSudoku.boxUnit size r c).Nodup := by
  unfold ColorSudoku.boxUnit
  rw [List.nodup_flatMap]
  constructor
  · intro i _
    refine List.Nodup.map ?_ (List.nodup_range _)
    intro a b h
    injection h with h1 h2
    omega
  · have hpl : (List.range (ColorSudoku.rankOf size)).Pairwise (· ≠ ·) :=
      List.nodup_range _
    refine hpl.imp ?_
    intro i j hij
    intro x hxi hxj
    rw [List.mem_map] at hxi hxj
    obtain ⟨a, _, rfl⟩ := hxi
    obtain ⟨b, _, heq⟩ := hxj
    rw [Prod.mk.injEq] at heq
    omega

theorem set_none_self {l : List (Option Color)} {c : Nat} (h : l.getD c none = none) :
    l.set c none = l := by
  apply List.ext_getElem?
  intro n
  by_cases hn : c = n
  · subst hn
    by_cases hc : c < l.length
    · rw [List.getElem?_set_self hc]
      rw [List.getD_eq_getElem?_getD, List.getElem?_eq_getElem hc] at h
      rw [List.getElem?_eq_getElem hc]
      simp only [Option.getD_some] at h
      rw [h]
    · rw [List.set_eq_of_length_le (Nat.le_of_not_lt hc)]
  · rw [List.getElem?_set_ne hn]

theorem setCell_cancel {g : Grid} {r c : Nat} (v : Option Color)
    (hnone : cell g r c = none) : setCell (setCell g r c v) r c none = g := by
  unfold setCell cell at *
  by_cases hr : r < g.length
  · have hget : (g.set r ((g.getD r []).set c v)).getD r [] = (g.getD r []).set c v := by
      rw [List.getD_eq_getElem?_getD, List.getElem?_set_self (by simpa using hr)]
      rfl
    rw [hget, List.set_set, List.set_set, set_none_self hnone]
    have hg : g.getD r [] = g[r] := by
      simp [List.getElem?_eq_getElem hr]
    rw [hg, set_getElem_self_list hr]
  · rw [List.set_eq_of_length_le (Nat.le_of_not_lt hr),
      List.set_eq_of_length_le (Nat.le_of_not_lt hr)]

theorem tryColors_fail_restore {size row col : Nat} {g : Grid}
    (hnone : cell g row col = none) (recur : Grid → Bool × Grid)
    (hrec : ∀ c : Color, (recur (setCell g row col (some c))).1 = false →
      (recur (setCell g row col (some c))).2 = setCell g row col (some c)) :
    ∀ cs : List Color, (tryColors size recur row col cs g).1 = false →
      (tryColors size recur row col cs g).2 = g := by
  intro cs
  induction cs with
  | nil => intro _; rfl
  | cons c rest ih =>
    simp only [tryColors]
    by_cases hv : gen_is_valid size g row col c = true
    · rw [if_pos hv]
      cases hres : recur (setCell g row col (some c)) with
      | mk b g2 =>
        cases b
        · have hg2 : g2 = setCell g row col (some c) := by
            have := hrec c
            rw [hres] at this
            exact this rfl
          subst hg2
          dsimp only
          rw [setCell_cancel (some c) hnone]
          exact ih
        · intro hfail
          cases hfail
    · rw [if_neg hv]
      exact ih

theorem bt_solve_fail_restore (size : Nat) (ord : ColorOrd) :
    ∀ (fuel : Nat) (g : Grid) (row col : Nat), row ≤ size → col ≤ size →
      EmptyFromRaster size row col g →
      (Backtracking.solve size ord fuel g row col).1 = false →
      (Backtracking.solve size ord fuel g row col).2 = g := by
  intro fuel
  induction fuel with
  | zero => intro g row col _ _ _ _; rfl
  | succ f ih =>
    intro g row col hr hc hef
    simp only [Backtracking.solve]
    by_cases hrs : row = size
    · rw [if_pos hrs]
      intro hfail
      cases hfail
    · rw [if_neg hrs]
      by_cases hcs : col = size
      · rw [if_pos hcs]
        refine ih g (row + 1) 0 (by omega) (by omega) ?_
        intro r c hr2 hc2 hcase
        exact hef r c hr2 hc2 (by omega)
      · rw [if_neg hcs]
        refine tryColors_fail_restore ?_ _ ?_ (ord row col g)
        · exact hef row col (by omega) (by omega) (by omega)
        · intro c
          refine ih (setCell g row col (some c)) row (col + 1) (by omega) (by omega) ?_
          intro r c2 hr2 hc2 hcase
          rw [cell_setCell_ne g row col (some c)
            (by intro heq; rw [Prod.mk.injEq] at heq; omega)]
          exact hef r c2 hr2 hc2 (by omega)

theorem mrv_solve_fail_restore (size : Nat) (colors : List Color) (ord : ColorOrd) :
    ∀ (fuel : Nat) (g : Grid),
      (MRV.solve size colors ord fuel g).1 = false →
      (MRV.solve size colors ord fuel g).2 = g := by
  intro fuel
  induction fuel with
  | zero => intro g _; rfl
  | succ f ih =>
    intro g
    simp only [MRV.solve]
    cases hcell : MRV.get_least_remaining_values_cell size colors g with
    | none =>
      intro hfail
      cases hfail
    | some rc =>
      obtain ⟨row, col⟩ := rc
      obtain ⟨-, -, hnone⟩ := mrv_cell_lt hcell
      exact tryColors_fail_restore hnone _ (fun c => ih (setCell g row col (some c)))
        (ord row col g)

/-! The DLX engine never loses or invents solution-stack entries on the
failure path: cover and uncover do not touch the stack, and a failing
search leaves it exactly as found. -/

theorem solution_coverRowAux :
    ∀ (fuel : Nat) (s : DLXState) (node j : Nat),
      (DLX.coverRowAux s node j fuel).solution = s.solution := by
  intro fuel
  induction fuel with
  | zero => intro s node j; rfl
  | succ f ih =>
    intro s node j
    simp only [DLX.coverRowAux]
    split
    · rfl
    · exact ih _ node _

theorem solution_coverColAux (F : Nat) :
    ∀ (fuel : Nat) (s : DLXState) (c node : Nat),
      (DLX.coverColAux F s c node fuel).solution = s.solution := by
  intro fuel
  induction fuel with
  | zero => intro s c node; rfl
  | succ f ih =>
    intro s c node
    simp only [DLX.coverColAux]
    split
    · rfl
    · rw [ih, solution_coverRowAux]

theorem solution_cover (F : Nat) (s : DLXState) (c : Nat) :
    (DLX.cover F s c).solution = s.solution := by
  unfold DLX.cover
  rw [solution_coverColAux]

theorem solution_uncoverRowAux :
    ∀ (fuel : Nat) (s : DLXState) (node j : Nat),
      (DLX.uncoverRowAux s node j fuel).solution = s.solution := by
  intro fuel
  induction fuel with
  | zero => intro s node j; rfl
  | succ f ih =>
    intro s node j
    simp only [DLX.uncoverRowAux]
    split
    · rfl
    · exact ih _ node _

theorem solution_uncoverColAux (F : Nat) :
    ∀ (fuel : Nat) (s : DLXState) (c node : Nat),
      (DLX.uncoverColAux F s c node fuel).solution = s.solution := by
  intro fuel
  induction fuel with
  | zero => intro s c node; rfl
  | succ f ih =>
    intro s c node
    simp only [DLX.uncoverColAux]
    split
    · rfl
    · rw [ih, solution_uncoverRowAux]

theorem solution_uncover (F : Nat) (s : DLXState) (c : Nat) :
    (DLX.uncover F s c).solution = s.solution := by
  unfold DLX.uncover
  rw [solution_uncoverColAux]

theorem solution_coverRights (F : Nat) :
    ∀ (fuel : Nat) (s : DLXState) (node j : Nat),
      (DLX.coverRights F s node j fuel).solution = s.solution := by
  intro fuel
  induction fuel with
  | zero => intro s node j; rfl
  | succ f ih =>
    intro s node j
    simp only [DLX.coverRights]
    split
    · rfl
    · rw [ih, solution_cover]

theorem solution_uncoverLefts (F : Nat) :
    ∀ (fuel : Nat) (s : DLXState) (node j : Nat),
      (DLX.uncoverLefts F s node j fuel).solution = s.solution := by
  intro fuel
  induction fuel with
  | zero => intro s node j; rfl
  | succ f ih =>
    intro s node j
    simp only [DLX.uncoverLefts]
    split
    · rfl
    · rw [ih, solution_uncover]

theorem search_fail_solution (F : Nat) :
    ∀ fuel : Nat,
      (∀ st : DLXState, (DLX.search F fuel st).1 = some false →
        (DLX.search F fuel st).2.solution = st.solution) ∧
      (∀ (st : DLXState) (c node : Nat),
        (DLX.searchRows F fuel st c node).1 = some false →
        (DLX.searchRows F fuel st c node).2.solution = st.solution) := by
  intro fuel
  induction fuel with
  | zero =>
    constructor
    · intro st hfail
      cases hfail
    · intro st c node hfail
      cases hfail
  | succ f ih =>
    constructor
    · intro st
      simp only [DLX.search]
      split
      · intro hfail
        cases hfail
      · intro hfail
        rw [ih.2 _ _ _ hfail, solution_cover]
    · intro st c node
      simp only [DLX.searchRows]
      split
      · intro _
        rw [solution_uncover]
      · cases hsr : DLX.search F f
          (DLX.coverRights F { st with solution := st.solution ++ [st.rowOf node] } node
            ({ st with solution := st.solution ++ [st.rowOf node] }.right node) F) with
        | mk ob s3 =>
          cases ob with
          | none =>
            intro hfail
            cases hfail
          | some b =>
            cases b
            · intro hfail
              have hs3 : s3.solution = st.solution ++ [st.rowOf node] := by
                have := ih.1 _ (by rw [hsr])
                rw [hsr] at this
                rw [this, solution_coverRights]
              rw [ih.2 _ _ _ hfail, solution_uncoverLefts]
              simp only [hs3, List.dropLast_concat]
            · intro hfail
              cases hfail

theorem solution_insertNode (s : DLXState) (nd cl rowIdx : Nat) (first : Option Nat) :
    (DLX.insertNode s nd cl rowIdx first).solution = s.solution := by
  unfold DLX.insertNode
  cases first <;> rfl

theorem solution_buildRow (s : DLXState) (nextId rowIdx : Nat) (mrow : List Nat) :
    (DLX.buildRow s nextId rowIdx mrow).1.solution = s.solution := by
  unfold DLX.buildRow
  refine foldl_invariant_eq
    (C := fun acc : DLXState × Option Nat × Nat => acc.1.solution = s.solution) rfl rfl ?_
  intro x _ acc hacc
  split
  · rw [solution_insertNode]
    exact hacc
  · exact hacc

theorem solution_linkColumns (numCols : Nat) (s : DLXState) :
    (DLX.linkColumns numCols s).solution = s.solution := by
  have key : ∀ (l : List Nat) (t : DLXState), t.solution = s.solution →
      (l.foldl (fun t i =>
        { t with right := Function.update t.right i (i + 1),
                 left := Function.update t.left (i + 1) i }) t).solution = s.solution := by
    intro l
    induction l with
    | nil => intro t ht; exact ht
    | cons a l ih => intro t ht; exact ih _ ht
  exact key _ _ rfl

theorem solution_build_linked_matrix (matrix : List (List Nat)) :
    (DLX.build_linked_matrix matrix).solution = [] := by
  unfold DLX.build_linked_matrix
  refine foldl_invariant_eq (C := fun acc : DLXState × Nat => acc.1.solution = []) rfl ?_ ?_
  · dsimp only
    rw [solution_linkColumns]
    rfl
  · intro x _ acc hacc
    rw [solution_buildRow]
    exact hacc

/-- Claim C3 (amended): on exhaustion none of the generators crashes, but
only DSATUR signals failure explicitly (returning None); the backtracking
and MRV solvers undo every placement and generate_sudoku silently returns
the all-empty grid, and a failed DLX search leaves the solution stack
empty so generate_sudoku returns the all-empty decoded grid. -/
theorem C3_exhaustion_behavior :
    (∀ (size : Nat) (ord : ColorOrd) (fuel : Nat),
      (Backtracking.solve size ord fuel (emptyGrid size) 0 0).1 = false →
      (Backtracking.solve size ord fuel (emptyGrid size) 0 0).2 = emptyGrid size) ∧
    (∀ (size : Nat) (colors : List Color) (ord : ColorOrd) (fuel : Nat),
      (MRV.solve size colors ord fuel (emptyGrid size)).1 = false →
      (MRV.solve size colors ord fuel (emptyGrid size)).2 = emptyGrid size) ∧
    (∀ (size : Nat) (colors : List Color) (g : Grid) (row col fuel : Nat),
      DSATUR.get_most_saturated_cell size g = some (row, col) →
      DSATUR.assign_color size colors g row col = none →
      DSATUR.loop size colors (fuel + 1) g = none) ∧
    (∀ (size : Nat) (colors : List Color) (chainF searchF : Nat),
      (DLX.search chainF searchF
        (DLX.build_linked_matrix (DLXGen.create_exact_cover_matrix size))).1 = some false →
      DLXGen.generate_sudoku size colors chainF searchF = emptyGrid size) := by
  refine ⟨fun size ord fuel hfail => ?_, fun size colors ord fuel hfail => ?_,
    fun size colors g row col fuel h1 h2 => ?_, fun size colors chainF searchF hfail => ?_⟩
  · refine bt_solve_fail_restore size ord fuel (emptyGrid size) 0 0 (Nat.zero_le _)
      (Nat.zero_le _) ?_ hfail
    intro r c _ _ _
    exact cell_emptyGrid size r c
  · exact mrv_solve_fail_restore size colors ord fuel (emptyGrid size) hfail
  · simp only [DSATUR.loop]
    rw [h1]
    dsimp only
    rw [h2]
  · unfold DLXGen.generate_sudoku
    dsimp only
    have hsol := (search_fail_solution chainF searchF).1 _ hfail
    rw [hsol, solution_build_linked_matrix]
    rfl

/-- Counterexample to C3 as stated: with size 2 and a single color the
backtracking search exhausts all branches (solve returns False), yet the
generation call returns a plain grid value, namely the all-empty grid,
with no explicit no-solution result. -/
theorem C3_counterexample :
    (Backtracking.solve 2 (fun _ _ _ => ["red"]) 9 (emptyGrid 2) 0 0).1 = false ∧
    Backtracking.generate_sudoku 2 (fun _ _ _ => ["red"]) = [[none, none], [none, none]] := by
  constructor <;> rfl

/-- Witness for C3: the backtracking conjunct applied to the exhausted
size-2 one-color configuration. -/
theorem C3_exhaustion_behavior_witness :
    (Backtracking.solve 2 (fun _ _ _ => ["red"]) 9 (emptyGrid 2) 0 0).2 = emptyGrid 2 :=
  C3_exhaustion_behavior.1 2 (fun _ _ _ => ["red"]) 9 (by rfl)

theorem units_distinct_of_valid {size : Nat} {g : Grid}
    (hsq : ColorSudoku.rankOf size * ColorSudoku.rankOf size = size)
    (h : ColorSudoku.is_valid_solution size g = true) : UnitsAllDistinct size g := by
  obtain ⟨hcomp, hcons⟩ := complete_consistent_of_valid h
  refine ⟨fun row hrow => ?_, fun col hcol => ?_, fun r hr c hc => ?_⟩
  · refine unit_map_nodup hcomp hcons (rowUnit_nodup size row) ?_ ?_
    · intro p hp
      obtain ⟨a, b⟩ := p
      rw [mem_rowUnit_iff] at hp
      obtain ⟨rfl, hb⟩ := hp
      exact ⟨hrow, hb⟩
    · intro p hp q hq _
      unfold ColorSudoku.unitCells
      refine List.mem_append.mpr (Or.inl (List.mem_append.mpr (Or.inl ?_)))
      obtain ⟨a, b⟩ := p
      rw [mem_rowUnit_iff] at hp
      obtain ⟨rfl, -⟩ := hp
      exact hq
  · refine unit_map_nodup hcomp hcons (colUnit_nodup size col) ?_ ?_
    · intro p hp
      obtain ⟨a, b⟩ := p
      rw [mem_colUnit_iff] at hp
      obtain ⟨ha, rfl⟩ := hp
      exact ⟨ha, hcol⟩
    · intro p hp q hq _
      unfold ColorSudoku.unitCells
      refine List.mem_append.mpr (Or.inl (List.mem_append.mpr (Or.inr ?_)))
      obtain ⟨a, b⟩ := p
      rw [mem_colUnit_iff] at hp
      obtain ⟨-, rfl⟩ := hp
      exact hq
  · have hb0 : 0 < ColorSudoku.rankOf size := by
      rcases Nat.eq_zero_or_pos (ColorSudoku.rankOf size) with h0 | h0
      · rw [h0] at hsq
        omega
      · exact h0
    refine unit_map_nodup hcomp hcons (boxUnit_nodup size r c) ?_ ?_
    · intro p hp
      have hpu : p ∈ ColorSudoku.unitCells size r c := by
        unfold ColorSudoku.unitCells
        exact List.mem_append.mpr (Or.inr hp)
      obtain ⟨a, b⟩ := p
      exact mem_unitCells_lt hsq hr hc hpu
    · intro p hp q hq _
      unfold ColorSudoku.unitCells
      refine List.mem_append.mpr (Or.inr ?_)
      obtain ⟨a, b⟩ := p
      obtain ⟨a2, b2⟩ := q
      rw [mem_boxUnit_iff hb0] at hp hq ⊢
      exact ⟨hq.1.trans hp.1.symm, hq.2.trans hp.2.symm⟩

theorem filterMap_id_length {L : List (Option Color)} (h : ∀ x ∈ L, x ≠ none) :
    (L.filterMap id).length = L.length := by
  induction L with
  | nil => rfl
  | cons a L ih =>
    cases a with
    | none => exact absurd rfl (h none (List.mem_cons_self _ _))
    | some b =>
      simp only [List.filterMap_cons, id, List.length_cons]
      rw [ih (fun x hx => h x (List.mem_cons_of_mem _ hx))]

theorem dsatur_short_colors_fail {size : Nat} (colors : List Color)
    (hsq : ColorSudoku.rankOf size * ColorSudoku.rankOf size = size)
    (hpos : 0 < size) (hshort : colors.length < size) :
    DSATUR.generate_sudoku size colors = none := by
  cases hres : DSATUR.generate_sudoku size colors with
  | none => rfl
  | some g =>
    exfalso
    obtain ⟨hd, hcons, hcomp, hci⟩ := dsatur_loop_out size colors hsq _ (emptyGrid size) g
      (dims_emptyGrid size) (consistentG_emptyGrid size) (colorsIn_emptyGrid colors size) hres
    have hvalid := is_valid_solution_of_complete_consistent hcomp hcons
    have hnodup := (units_distinct_of_valid hsq hvalid).1 0 hpos
    set L := (ColorSudoku.rowUnit size 0).map (fun p => cell g p.1 p.2) with hL
    have hsome : ∀ x ∈ L, x ≠ none := by
      intro x hx
      rw [hL, List.mem_map] at hx
      obtain ⟨p, hp, rfl⟩ := hx
      obtain ⟨a, b⟩ := p
      rw [mem_rowUnit_iff] at hp
      obtain ⟨rfl, hb⟩ := hp
      exact hcomp _ hpos _ hb
    have hlenL : L.length = size := by
      rw [hL]
      simp [ColorSudoku.rowUnit]
    have hnd : (L.filterMap id).Nodup := by
      refine List.Nodup.filterMap ?_ hnodup
      intro a a' b hb hb'
      rw [Option.mem_def, id] at hb hb'
      rw [hb, hb']
    have hlen2 : (L.filterMap id).length = size := by
      rw [filterMap_id_length hsome, hlenL]
    have hsub : L.filterMap id ⊆ colors := by
      intro x hx
      rw [List.mem_filterMap] at hx
      obtain ⟨a, ha, hax⟩ := hx
      rw [id] at hax
      subst hax
      rw [hL, List.mem_map] at ha
      obtain ⟨p, _, hcell⟩ := ha
      exact hci p.1 p.2 x hcell
    have hle := (List.Nodup.subperm hnd hsub).length_le
    omega

/-- Claim C6: whenever DSATUR reaches an unfilled cell whose neighbors
use every available color (assign_color returns none), the loop returns
the explicit failure result none, not a grid; and on size 9 with only 8
supplied colors generate_sudoku returns none, never a grid. -/
theorem C6_dsatur_dead_end :
    (∀ (size : Nat) (colors : List Color) (g : Grid) (row col fuel : Nat),
      DSATUR.get_most_saturated_cell size g = some (row, col) →
      DSATUR.assign_color size colors g row col = none →
      DSATUR.loop size colors (fuel + 1) g = none) ∧
    (∀ colors : List Color, colors.length = 8 →
      DSATUR.generate_sudoku 9 colors = none) := by
  constructor
  · intro size colors g row col fuel h1 h2
    simp only [DSATUR.loop]
    rw [h1]
    dsimp only
    rw [h2]
  · intro colors hlen
    exact dsatur_short_colors_fail colors (by decide) (by decide) (by omega)

/-- Witness for C6: eight concrete colors on a size-9 grid. -/
theorem C6_dsatur_dead_end_witness :
    DSATUR.generate_sudoku 9 (ColorSudoku.base_colors.take 8) = none :=
  C6_dsatur_dead_end.2 (ColorSudoku.base_colors.take 8) (by rfl)

/-! Shape of the exact-cover matrix (claim C7).  The triple-nested fold of
create_exact_cover_matrix is first rewritten as a single fold over the
lexicographic list of (row, col, num) triples; each step touches only the
matrix row of its own index, and the index map is injective, so every
matrix row is the zero row with exactly the four constraint ones set. -/

theorem foldl_flatMap_eq {α β γ : Type} (la : List α) (f : α → List γ)
    (step : β → γ → β) (b : β) :
    (la.flatMap f).foldl step b = la.foldl (fun m x => (f x).foldl step m) b := by
  induction la generalizing b with
  | nil => rfl
  | cons a la ih =>
    rw [List.flatMap_cons, List.foldl_append, List.foldl_cons, ih]

/-- The lexicographic triple list driving create_exact_cover_matrix. -/
def coverTriples (size : Nat) : List (Nat × Nat × Nat) :=
  (List.range size).flatMap fun r =>
    (List.range size).flatMap fun c =>
      (List.range size).map fun n => (r, c, n)

/-- One step of the flattened fold: the four constraint writes of a
(row, col, num) triple. -/
def coverStep (size : Nat) (m : List (List Nat)) (t : Nat × Nat × Nat) : List (List Nat) :=
  let row := t.1
  let col := t.2.1
  let num := t.2.2
  let box_size := ColorSudoku.rankOf size
  let index := (row * size + col) * size + num
  let m1 := DLXGen.set2d m index (row * size + col) 1
  let m2 := DLXGen.set2d m1 index (size * size + row * size + num) 1
  let m3 := DLXGen.set2d m2 index (2 * size * size + col * size + num) 1
  let box := row / box_size * box_size + col / box_size
  DLXGen.set2d m3 index (3 * size * size + box * size + num) 1

theorem create_matrix_eq_flat (size : Nat) :
    DLXGen.create_exact_cover_matrix size =
      (coverTriples size).foldl (coverStep size)
        (List.replicate (size * size * size) (List.replicate (4 * size * size) 0)) := by
  unfold DLXGen.create_exact_cover_matrix coverTriples
  simp only [foldl_flatMap_eq, List.foldl_map]
  rfl

theorem set2d_length (m : List (List Nat)) (i j v : Nat) :
    (DLXGen.set2d m i j v).length = m.length := by
  unfold DLXGen.set2d
  exact List.length_set ..

theorem coverStep_length (size : Nat) (m : List (List Nat)) (t : Nat × Nat × Nat) :
    (coverStep size m t).length = m.length := by
  unfold coverStep
  simp only [set2d_length]

theorem set2d_frame (m : List (List Nat)) {i j : Nat} (p v : Nat) (h : i ≠ j) :
    (DLXGen.set2d m i p v).getD j [] = m.getD j [] := by
  unfold DLXGen.set2d
  simp only [List.getD_eq_getElem?_getD, List.getElem?_set_ne h]

theorem coverStep_frame (size : Nat) (m : List (List Nat)) {t : Nat × Nat × Nat} {j : Nat}
    (h : (t.1 * size + t.2.1) * size + t.2.2 ≠ j) :
    (coverStep size m t).getD j [] = m.getD j [] := by
  unfold coverStep
  simp only [set2d_frame _ _ _ h]

theorem foldl_coverStep_frame (size : Nat) :
    ∀ (L : List (Nat × Nat × Nat)) (m : List (List Nat)) (j : Nat),
      (∀ t ∈ L, (t.1 * size + t.2.1) * size + t.2.2 ≠ j) →
      (L.foldl (coverStep size) m).getD j [] = m.getD j [] := by
  intro L
  induction L with
  | nil => intro m j _; rfl
  | cons t L ih =>
    intro m j hall
    rw [List.foldl_cons, ih _ j (fun t' ht' => hall t' (List.mem_cons_of_mem _ ht')),
      coverStep_frame size m (hall t (List.mem_cons_self _ _))]

theorem set2d_hit {m : List (List Nat)} {i : Nat} (p v : Nat) (h : i < m.length) :
    (DLXGen.set2d m i p v).getD i [] = (m.getD i []).set p v := by
  unfold DLXGen.set2d
  rw [List.getD_eq_getElem?_getD, List.getElem?_set_self h]
  rfl

theorem coverStep_hit (size : Nat) {m : List (List Nat)} {t : Nat × Nat × Nat}
    (h : (t.1 * size + t.2.1) * size + t.2.2 < m.length) :
    (coverStep size m t).getD ((t.1 * size + t.2.1) * size + t.2.2) [] =
      ((((m.getD ((t.1 * size + t.2.1) * size + t.2.2) []).set (t.1 * size + t.2.1) 1).set
          (size * size + t.1 * size + t.2.2) 1).set
          (2 * size * size + t.2.1 * size + t.2.2) 1).set
          (3 * size * size +
            (t.1 / ColorSudoku.rankOf size * ColorSudoku.rankOf size +
              t.2.1 / ColorSudoku.rankOf size) * size + t.2.2) 1 := by
  unfold coverStep
  rw [set2d_hit _ _ (by simp only [set2d_length]; exact h),
    set2d_hit _ _ (by simp only [set2d_length]; exact h),
    set2d_hit _ _ (by simp only [set2d_length]; exact h),
    set2d_hit _ _ h]

theorem mem_coverTriples {size : Nat} {t : Nat × Nat × Nat} :
    t ∈ coverTriples size ↔ t.1 < size ∧ t.2.1 < size ∧ t.2.2 < size := by
  unfold coverTriples
  simp only [List.mem_flatMap, List.mem_map, List.mem_range]
  constructor
  · rintro ⟨r, hr, c, hc, n, hn, rfl⟩
    exact ⟨hr, hc, hn⟩
  · rintro ⟨h1, h2, h3⟩
    exact ⟨t.1, h1, t.2.1, h2, t.2.2, h3, rfl⟩

theorem coverTriples_nodup (size : Nat) : (coverTriples size).Nodup := by
  unfold coverTriples
  rw [List.nodup_flatMap]
  constructor
  · intro r _
    rw [List.nodup_flatMap]
    constructor
    · intro c _
      refine List.Nodup.map ?_ (List.nodup_range _)
      intro a b h
      injection h with h1 h2
      injection h2
    · refine (List.nodup_range _).imp ?_
      intro c c' hcc x hx hx'
      rw [List.mem_map] at hx hx'
      obtain ⟨n, _, rfl⟩ := hx
      obtain ⟨n', _, heq⟩ := hx'
      injection heq with h1 h2
      injection h2 with h3 h4
      exact hcc h3.symm
  · refine (List.nodup_range _).imp ?_
    intro r r' hrr x hx hx'
    rw [List.mem_flatMap] at hx hx'
    obtain ⟨c, _, hx⟩ := hx
    obtain ⟨c', _, hx'⟩ := hx'
    rw [List.mem_map] at hx hx'
    obtain ⟨n, _, rfl⟩ := hx
    obtain ⟨n', _, heq⟩ := hx'
    injection heq with h1 h2
    exact hrr h1.symm

theorem foldl_coverStep_length (size : Nat) :
    ∀ (L : List (Nat × Nat × Nat)) (m : List (List Nat)),
      (L.foldl (coverStep size) m).length = m.length := by
  intro L
  induction L with
  | nil => intro m; rfl
  | cons t L ih =>
    intro m
    rw [List.foldl_cons, ih, coverStep_length]

theorem triple_index_lt {size r c n : Nat} (hr : r < size) (hc : c < size) (hn : n < size) :
    (r * size + c) * size + n < size * size * size := by
  have h1 : r * size + c < size * size := by
    calc r * size + c < r * size + size := by omega
      _ = (r + 1) * size := by ring
      _ ≤ size * size := Nat.mul_le_mul_right size (by omega)
  calc (r * size + c) * size + n < (r * size + c) * size + size := by omega
    _ = (r * size + c + 1) * size := by ring
    _ ≤ size * size * size := Nat.mul_le_mul_right size (by omega)

theorem triple_index_inj {size r c n r' c' n' : Nat} (hc : c < size) (hn : n < size)
    (hc' : c' < size) (hn' : n' < size)
    (heq : (r * size + c) * size + n = (r' * size + c') * size + n') :
    r = r' ∧ c = c' ∧ n = n' := by
  have hs : 0 < size := by omega
  have key : ∀ a b : Nat, b < size → (a * size + b) % size = b ∧ (a * size + b) / size = a := by
    intro a b hb
    constructor
    · rw [Nat.mul_comm a size, Nat.mul_add_mod]
      exact Nat.mod_eq_of_lt hb
    · rw [Nat.mul_comm a size, Nat.mul_add_div hs, Nat.div_eq_of_lt hb, Nat.add_zero]
  have e1 := key (r * size + c) n hn
  have e2 := key (r' * size + c') n' hn'
  have hn2 : n = n' := by
    rw [← e1.1, ← e2.1, heq]
  have hrc : r * size + c = r' * size + c' := by
    rw [← e1.2, ← e2.2, heq]
  have e3 := key r c hc
  have e4 := key r' c' hc'
  have hc2 : c = c' := by
    rw [← e3.1, ← e4.1, hrc]
  have hr2 : r = r' := by
    rw [← e3.2, ← e4.2, hrc]
  exact ⟨hr2, hc2, hn2⟩

theorem set_chain_getD {len p1 p2 p3 p4 : Nat} (h1 : p1 < len) (h2 : p2 < len)
    (h3 : p3 < len) (h4 : p4 < len) (j : Nat) :
    ((((((List.replicate len 0).set p1 1).set p2 1).set p3 1).set p4 1 :
      List Nat).getD j 0 = 1) ↔ (j = p1 ∨ j = p2 ∨ j = p3 ∨ j = p4) := by
  have hL1 : ((List.replicate len (0 : Nat)).set p1 1).length = len := by simp
  have hL2 : (((List.replicate len (0 : Nat)).set p1 1).set p2 1).length = len := by simp
  have hL3 : ((((List.replicate len (0 : Nat)).set p1 1).set p2 1).set p3 1).length = len := by
    simp
  constructor
  · intro h
    by_contra hno
    push_neg at hno
    obtain ⟨n1, n2, n3, n4⟩ := hno
    rw [List.getD_eq_getElem?_getD, List.getElem?_set_ne (fun hh => n4 hh.symm),
      List.getElem?_set_ne (fun hh => n3 hh.symm),
      List.getElem?_set_ne (fun hh => n2 hh.symm),
      List.getElem?_set_ne (fun hh => n1 hh.symm), List.getElem?_replicate] at h
    by_cases hj : j < len
    · rw [if_pos hj] at h
      cases h
    · rw [if_neg hj] at h
      cases h
  · intro h
    by_cases e4 : j = p4
    · subst e4
      rw [List.getD_eq_getElem?_getD, List.getElem?_set_self (by rw [hL3]; exact h4)]
      rfl
    by_cases e3 : j = p3
    · subst e3
      rw [List.getD_eq_getElem?_getD, List.getElem?_set_ne (fun hh => e4 hh.symm),
        List.getElem?_set_self (by rw [hL2]; exact h3)]
      rfl
    by_cases e2 : j = p2
    · subst e2
      rw [List.getD_eq_getElem?_getD, List.getElem?_set_ne (fun hh => e4 hh.symm),
        List.getElem?_set_ne (fun hh => e3 hh.symm),
        List.getElem?_set_self (by rw [hL1]; exact h2)]
      rfl
    by_cases e1 : j = p1
    · subst e1
      rw [List.getD_eq_getElem?_getD, List.getElem?_set_ne (fun hh => e4 hh.symm),
        List.getElem?_set_ne (fun hh => e3 hh.symm),
        List.getElem?_set_ne (fun hh => e2 hh.symm),
        List.getElem?_set_self (by simp; exact h1)]
      rfl
    · rcases h with h | h | h | h <;> [exact absurd h e1; exact absurd h e2;
        exact absurd h e3; exact absurd h e4]

theorem cover_matrix_row (size : Nat) {row col num : Nat}
    (hr : row < size) (hc : col < size) (hn : num < size) :
    (DLXGen.create_exact_cover_matrix size).getD ((row * size + col) * size + num) [] =
      ((((List.replicate (4 * size * size) 0).set (row * size + col) 1).set
        (size * size + row * size + num) 1).set
        (2 * size * size + col * size + num) 1).set
        (3 * size * size +
          (row / ColorSudoku.rankOf size * ColorSudoku.rankOf size +
            col / ColorSudoku.rankOf size) * size + num) 1 := by
  rw [create_matrix_eq_flat]
  have hmem : ((row, col, num) : Nat × Nat × Nat) ∈ coverTriples size :=
    mem_coverTriples.mpr ⟨hr, hc, hn⟩
  obtain ⟨L1, L2, hT⟩ := List.append_of_mem hmem
  have hnodup := coverTriples_nodup size
  rw [hT] at hnodup
  have hnotin2 : ((row, col, num) : Nat × Nat × Nat) ∉ L2 :=
    (List.nodup_cons.mp (hnodup.of_append_right)).1
  have hnotin1 : ((row, col, num) : Nat × Nat × Nat) ∉ L1 := by
    intro hmem1
    exact (List.disjoint_of_nodup_append hnodup) hmem1 (List.mem_cons_self _ _)
  have hrange : ∀ t' : Nat × Nat × Nat, t' ∈ L1 ∨ t' ∈ L2 →
      t'.1 < size ∧ t'.2.1 < size ∧ t'.2.2 < size := by
    intro t' ht'
    refine mem_coverTriples.mp ?_
    rw [hT]
    rcases ht' with h | h
    · exact List.mem_append_left _ h
    · exact List.mem_append_right _ (List.mem_cons_of_mem _ h)
  have hidx_ne : ∀ s : List (Nat × Nat × Nat), (((row, col, num) : Nat × Nat × Nat) ∉ s) →
      (∀ t' ∈ s, t' ∈ L1 ∨ t' ∈ L2) →
      ∀ t' ∈ s, (t'.1 * size + t'.2.1) * size + t'.2.2 ≠ (row * size + col) * size + num := by
    intro s hns hsub t' ht' heq
    obtain ⟨h1, h2, h3⟩ := hrange t' (hsub t' ht')
    obtain ⟨e1, e2, e3⟩ := triple_index_inj h2 h3 hc hn heq
    have : t' = (row, col, num) := by
      obtain ⟨a, b, d⟩ := t'
      simp only at e1 e2 e3
      rw [e1, e2, e3]
    exact hns (this ▸ ht')
  rw [hT, List.foldl_append, List.foldl_cons]
  rw [foldl_coverStep_frame size L2 _ _
    (hidx_ne L2 hnotin2 (fun t' ht' => Or.inr ht'))]
  have hlen : (row * size + col) * size + num <
      (L1.foldl (coverStep size)
        (List.replicate (size * size * size) (List.replicate (4 * size * size) 0))).length := by
    rw [foldl_coverStep_length]
    rw [List.length_replicate]
    exact triple_index_lt hr hc hn
  rw [coverStep_hit size hlen]
  rw [foldl_coverStep_frame size L1 _ _
    (hidx_ne L1 hnotin1 (fun t' ht' => Or.inl ht'))]
  rw [List.getD_eq_getElem?_getD,
    List.getElem?_replicate_of_lt (triple_index_lt hr hc hn)]
  rfl

theorem set2d_rows_length {m : List (List Nat)} {k : Nat}
    (hall : ∀ mrow ∈ m, mrow.length = k) (i p v : Nat) :
    ∀ mrow ∈ DLXGen.set2d m i p v, mrow.length = k := by
  by_cases hi : i < m.length
  · intro mrow hmrow
    unfold DLXGen.set2d at hmrow
    rcases List.mem_or_eq_of_mem_set hmrow with hmem | rfl
    · exact hall mrow hmem
    · rw [List.length_set]
      have hg : m.getD i [] = m[i] := by
        simp [List.getElem?_eq_getElem hi]
      rw [hg]
      exact hall _ (List.getElem_mem hi)
  · unfold DLXGen.set2d
    rw [List.set_eq_of_length_le (Nat.le_of_not_lt hi)]
    exact hall

theorem cover_matrix_rows_length (size : Nat) :
    ∀ mrow ∈ DLXGen.create_exact_cover_matrix size, mrow.length = 4 * size * size := by
  rw [create_matrix_eq_flat]
  refine foldl_invariant (C := fun m : List (List Nat) => ∀ mrow ∈ m, mrow.length = 4 * size * size)
    (coverStep size) (coverTriples size) _ ?_ ?_
  · intro mrow hmrow
    rw [List.eq_of_mem_replicate hmrow]
    simp
  · intro t _ acc hacc
    unfold coverStep
    exact set2d_rows_length (set2d_rows_length (set2d_rows_length
      (set2d_rows_length hacc _ _ _) _ _ _) _ _ _) _ _ _

/-- Claim C7: for a perfect-square size, the exact-cover matrix has
size^3 rows (one per (row, col, num) triple, the index map being a
bijection onto the row indices) and 4 * size^2 columns, and the row of
each triple holds a one exactly at its four constraint positions, one
in each of the four constraint groups (cell, row-color, column-color,
box-color). -/
theorem C7_exact_cover_matrix_shape (size : Nat)
    (hsq : ColorSudoku.rankOf size * ColorSudoku.rankOf size = size) :
    (DLXGen.create_exact_cover_matrix size).length = size * size * size ∧
    (∀ mrow ∈ DLXGen.create_exact_cover_matrix size, mrow.length = 4 * size * size) ∧
    (∀ i < size * size * size, ∃ r c n : Nat, r < size ∧ c < size ∧ n < size ∧
      (r * size + c) * size + n = i) ∧
    (∀ row col num : Nat, row < size → col < size → num < size →
      (row * size + col < size * size ∧
       size * size ≤ size * size + row * size + num ∧
       size * size + row * size + num < 2 * size * size ∧
       2 * size * size ≤ 2 * size * size + col * size + num ∧
       2 * size * size + col * size + num < 3 * size * size ∧
       3 * size * size ≤ 3 * size * size +
         (row / ColorSudoku.rankOf size * ColorSudoku.rankOf size +
           col / ColorSudoku.rankOf size) * size + num ∧
       3 * size * size +
         (row / ColorSudoku.rankOf size * ColorSudoku.rankOf size +
           col / ColorSudoku.rankOf size) * size + num < 4 * size * size) ∧
      (∀ j : Nat,
        ((DLXGen.create_exact_cover_matrix size).getD
            ((row * size + col) * size + num) []).getD j 0 = 1 ↔
          (j = row * size + col ∨ j = size * size + row * size + num ∨
           j = 2 * size * size + col * size + num ∨
           j = 3 * size * size +
             (row / ColorSudoku.rankOf size * ColorSudoku.rankOf size +
               col / ColorSudoku.rankOf size) * size + num))) := by
  refine ⟨?_, cover_matrix_rows_length size, ?_, ?_⟩
  · rw [create_matrix_eq_flat, foldl_coverStep_length, List.length_replicate]
  · intro i hi
    have hs : 0 < size := by
      rcases Nat.eq_zero_or_pos size with h0 | h0
      · rw [h0] at hi
        omega
      · exact h0
    refine ⟨i / size / size, i / size % size, i % size, ?_, Nat.mod_lt _ hs, Nat.mod_lt _ hs, ?_⟩
    · have h1 : i / size < size * size := Nat.div_lt_of_lt_mul (by
        rw [show size * (size * size) = size * size * size from by ring]
        exact hi)
      exact Nat.div_lt_of_lt_mul h1
    · have e1 : i / size / size * size + i / size % size = i / size := by
        rw [Nat.mul_comm]
        exact Nat.div_add_mod _ _
      have e2 : i / size * size + i % size = i := by
        rw [Nat.mul_comm]
        exact Nat.div_add_mod _ _
      rw [e1, e2]
  · intro row col num hr hc hn
    have hs : 0 < size := by omega
    have hb0 : 0 < ColorSudoku.rankOf size := by
      rcases Nat.eq_zero_or_pos (ColorSudoku.rankOf size) with h0 | h0
      · rw [h0] at hsq
        omega
      · exact h0
    have hp1 : row * size + col < size * size := by
      calc row * size + col < row * size + size := by omega
        _ = (row + 1) * size := by ring
        _ ≤ size * size := Nat.mul_le_mul_right size (by omega)
    have hp2 : row * size + num < size * size := by
      calc row * size + num < row * size + size := by omega
        _ = (row + 1) * size := by ring
        _ ≤ size * size := Nat.mul_le_mul_right size (by omega)
    have hp3 : col * size + num < size * size := by
      calc col * size + num < col * size + size := by omega
        _ = (col + 1) * size := by ring
        _ ≤ size * size := Nat.mul_le_mul_right size (by omega)
    have hbox : row / ColorSudoku.rankOf size * ColorSudoku.rankOf size +
        col / ColorSudoku.rankOf size < size := by
      have hrd : row / ColorSudoku.rankOf size < ColorSudoku.rankOf size :=
        Nat.div_lt_of_lt_mul (by omega)
      have hcd : col / ColorSudoku.rankOf size < ColorSudoku.rankOf size :=
        Nat.div_lt_of_lt_mul (by omega)
      calc row / ColorSudoku.rankOf size * ColorSudoku.rankOf size +
            col / ColorSudoku.rankOf size
          < row / ColorSudoku.rankOf size * ColorSudoku.rankOf size +
            ColorSudoku.rankOf size := by omega
        _ = (row / ColorSudoku.rankOf size + 1) * ColorSudoku.rankOf size := by ring
        _ ≤ ColorSudoku.rankOf size * ColorSudoku.rankOf size :=
            Nat.mul_le_mul_right _ (by omega)
        _ = size := hsq
    have hp4 : (row / ColorSudoku.rankOf size * ColorSudoku.rankOf size +
        col / ColorSudoku.rankOf size) * size + num < size * size := by
      calc (row / ColorSudoku.rankOf size * ColorSudoku.rankOf size +
            col / ColorSudoku.rankOf size) * size + num
          < (row / ColorSudoku.rankOf size * ColorSudoku.rankOf size +
            col / ColorSudoku.rankOf size) * size + size := by omega
        _ = (row / ColorSudoku.rankOf size * ColorSudoku.rankOf size +
            col / ColorSudoku.rankOf size + 1) * size := by ring
        _ ≤ size * size := Nat.mul_le_mul_right size (by omega)
    have e2 : 2 * size * size = 2 * (size * size) := by ring
    have e3 : 3 * size * size = 3 * (size * size) := by ring
    have e4 : 4 * size * size = 4 * (size * size) := by ring
    refine ⟨⟨hp1, by omega, by omega, by omega, by omega, by omega, by omega⟩, ?_⟩
    intro j
    rw [cover_matrix_row size hr hc hn]
    exact set_chain_getD (by omega) (by omega) (by omega) (by omega) j

/-- Witness for C7 at size 4: the row-count equality and the presence of
the cell-constraint one in the row of triple (1, 2, 3). -/
theorem C7_exact_cover_matrix_shape_witness :
    (DLXGen.create_exact_cover_matrix 4).length = 4 * 4 * 4 ∧
    ((DLXGen.create_exact_cover_matrix 4).getD ((1 * 4 + 2) * 4 + 3) []).getD (1 * 4 + 2) 0 = 1 :=
  ⟨(C7_exact_cover_matrix_shape 4 (by decide)).1,
   (((C7_exact_cover_matrix_shape 4 (by decide)).2.2.2 1 2 3 (by decide) (by decide)
      (by decide)).2 (1 * 4 + 2)).mpr (Or.inl rfl)⟩

/-- Claim C8: at every branching step the DLX search selects the column
immediately to the right of the header (node 0) in the header ring; no
minimum-size heuristic is used, as the concrete linked matrix built from
[[1,1],[1,0],[1,0]] shows: the selected column (node 1, size 3) is not
the live column of minimum size (node 2, size 1). -/
theorem C8_dlx_column_choice :
    (∀ (F f : Nat) (st : DLXState), st.right 0 ≠ 0 →
      DLX.search F (f + 1) st =
        DLX.searchRows F f (DLX.cover F st (st.right 0)) (st.right 0)
          ((DLX.cover F st (st.right 0)).down (st.right 0))) ∧
    ((DLX.build_linked_matrix [[1, 1], [1, 0], [1, 0]]).right 0 = 1 ∧
     (DLX.build_linked_matrix [[1, 1], [1, 0], [1, 0]]).right 1 = 2 ∧
     (DLX.build_linked_matrix [[1, 1], [1, 0], [1, 0]]).right 2 = 0 ∧
     (DLX.build_linked_matrix [[1, 1], [1, 0], [1, 0]]).size 2 <
       (DLX.build_linked_matrix [[1, 1], [1, 0], [1, 0]]).size 1) := by
  constructor
  · intro F f st h
    simp only [DLX.search]
    rw [if_neg h]
  · refine ⟨by decide, by decide, by decide, by decide⟩

/-- Witness for C8: the unfolding equation applied to the concrete
linked matrix built from [[1,1],[1,0],[1,0]]. -/
theorem C8_dlx_column_choice_witness :
    DLX.search 9 4 (DLX.build_linked_matrix [[1, 1], [1, 0], [1, 0]]) =
      DLX.searchRows 9 3
        (DLX.cover 9 (DLX.build_linked_matrix [[1, 1], [1, 0], [1, 0]])
          ((DLX.build_linked_matrix [[1, 1], [1, 0], [1, 0]]).right 0))
        ((DLX.build_linked_matrix [[1, 1], [1, 0], [1, 0]]).right 0)
        ((DLX.cover 9 (DLX.build_linked_matrix [[1, 1], [1, 0], [1, 0]])
          ((DLX.build_linked_matrix [[1, 1], [1, 0], [1, 0]]).right 0)).down
          ((DLX.build_linked_matrix [[1, 1], [1, 0], [1, 0]]).right 0)) :=
  C8_dlx_column_choice.1 9 3 (DLX.build_linked_matrix [[1, 1], [1, 0], [1, 0]]) (by decide)

theorem unlinkUD_up_self (s : DLXState) (j : Nat) : (DLX.unlinkUD s j).up j = s.up j := by
  unfold DLX.unlinkUD
  dsimp only
  by_cases h : j = s.down j
  · rw [← h, Function.update_same]
  · rw [Function.update_noteq h]

theorem unlinkUD_down_self (s : DLXState) (j : Nat) : (DLX.unlinkUD s j).down j = s.down j := by
  unfold DLX.unlinkUD
  dsimp only
  by_cases h : j = s.up j
  · rw [← h, Function.update_same]
  · rw [Function.update_noteq h]

theorem relink_unlink_pair {s : DLXState} {j : Nat} (h : RingInvUD s j) :
    DLX.relinkUD (DLX.unlinkUD s j) j = s := by
  obtain ⟨h1, h2⟩ := h
  have hu := unlinkUD_up_self s j
  have hd := unlinkUD_down_self s j
  unfold DLX.relinkUD
  rw [hu, hd]
  unfold DLX.unlinkUD
  refine DLXState.ext ?_ ?_ rfl rfl rfl rfl ?_ rfl
  · dsimp only
    rw [Function.update_idem]
    conv_rhs => rw [← Function.update_eq_self (s.down j) s.up]
    rw [h2]
  · dsimp only
    rw [Function.update_idem]
    conv_rhs => rw [← Function.update_eq_self (s.up j) s.down]
    rw [h1]
  · dsimp only
    rw [Function.update_same, Function.update_idem]
    have he : s.size (s.colOf j) - 1 + 1 = s.size (s.colOf j) := by omega
    rw [he, Function.update_eq_self]

theorem unlinkUD_right (t : DLXState) (j : Nat) : (DLX.unlinkUD t j).right = t.right := rfl

theorem unlinkUD_left (t : DLXState) (j : Nat) : (DLX.unlinkUD t j).left = t.left := rfl

theorem unlinkUD_colOf (t : DLXState) (j : Nat) : (DLX.unlinkUD t j).colOf = t.colOf := rfl

theorem relinkUD_right (t : DLXState) (j : Nat) : (DLX.relinkUD t j).right = t.right := rfl

theorem relinkUD_left (t : DLXState) (j : Nat) : (DLX.relinkUD t j).left = t.left := rfl

theorem relinkUD_colOf (t : DLXState) (j : Nat) : (DLX.relinkUD t j).colOf = t.colOf := rfl

theorem unlinkAll_right : ∀ (L : List Nat) (t : DLXState), (unlinkAll L t).right = t.right
  | [], _ => rfl
  | _ :: L, t => unlinkAll_right L _

theorem unlinkAll_left : ∀ (L : List Nat) (t : DLXState), (unlinkAll L t).left = t.left
  | [], _ => rfl
  | _ :: L, t => unlinkAll_left L _

theorem unlinkAll_colOf : ∀ (L : List Nat) (t : DLXState), (unlinkAll L t).colOf = t.colOf
  | [], _ => rfl
  | _ :: L, t => unlinkAll_colOf L _

theorem relinkAll_left : ∀ (L : List Nat) (t : DLXState), (relinkAll L t).left = t.left
  | [], _ => rfl
  | _ :: L, t => relinkAll_left L _

theorem relinkAll_colOf : ∀ (L : List Nat) (t : DLXState), (relinkAll L t).colOf = t.colOf
  | [], _ => rfl
  | _ :: L, t => relinkAll_colOf L _

theorem pres_ringInvUD {t : DLXState} {x k : Nat} (hx : RingInvUD t x) (hk : RingInvUD t k)
    (hne : x ≠ k) : RingInvUD (DLX.unlinkUD t k) x := by
  obtain ⟨hx1, hx2⟩ := hx
  obtain ⟨hk1, hk2⟩ := hk
  unfold DLX.unlinkUD RingInvUD
  dsimp only
  constructor
  · by_cases h : x = t.down k
    · rw [h, Function.update_same, Function.update_same]
    · rw [Function.update_noteq h]
      have hne2 : t.up x ≠ t.up k := by
        intro he
        exact hne (hx1 ▸ he ▸ hk1)
      rw [Function.update_noteq hne2, hx1]
  · by_cases h : x = t.up k
    · rw [h, Function.update_same, Function.update_same]
    · rw [Function.update_noteq h]
      have hne2 : t.down x ≠ t.down k := by
        intro he
        exact hne (hx2 ▸ he ▸ hk2)
      rw [Function.update_noteq hne2, hx2]

theorem relink_unlink_all : ∀ (J : List Nat) (t : DLXState), J.Nodup →
    (∀ j ∈ J, RingInvUD t j) → relinkAll J.reverse (unlinkAll J t) = t
  | [], t, _, _ => rfl
  | j :: J, t, hnd, hinv => by
    have hstep : unlinkAll (j :: J) t = unlinkAll J (DLX.unlinkUD t j) := rfl
    have hrev : (j :: J).reverse = J.reverse ++ [j] := by simp
    have hsnoc : relinkAll (J.reverse ++ [j]) (unlinkAll J (DLX.unlinkUD t j)) =
        DLX.relinkUD (relinkAll J.reverse (unlinkAll J (DLX.unlinkUD t j))) j := by
      simp [relinkAll, List.foldl_append]
    have hnd2 := List.nodup_cons.mp hnd
    have hIH : relinkAll J.reverse (unlinkAll J (DLX.unlinkUD t j)) = DLX.unlinkUD t j :=
      relink_unlink_all J (DLX.unlinkUD t j) hnd2.2 (fun k hk =>
        pres_ringInvUD (hinv k (List.mem_cons_of_mem _ hk)) (hinv j (List.mem_cons_self _ _))
          (fun he => hnd2.1 (he ▸ hk)))
    rw [hstep, hrev, hsnoc, hIH]
    exact relink_unlink_pair (hinv j (List.mem_cons_self _ _))

theorem chain_congr {f g : Nat → Nat} {stop : Nat} :
    ∀ {L : List Nat} {x : Nat}, (∀ a ∈ L, f a = g a) →
      isChainB f stop x L = isChainB g stop x L
  | [], _, _ => rfl
  | a :: L, x, h => by
    unfold isChainB
    by_cases hax : a = x
    · subst hax
      have h1 : f a = g a := h a (List.mem_cons_self _ _)
      rw [h1, chain_congr (fun b hb => h b (List.mem_cons_of_mem _ hb))]
    · have hf : (a == x) = false := beq_eq_false_iff_ne.mpr hax
      rw [hf]
      simp

theorem isChainB_iff_links {f : Nat → Nat} {stop : Nat} :
    ∀ {L : List Nat} {x : Nat},
      isChainB f stop x L = true ↔ (Links f L x stop ∧ ∀ a ∈ L, a ≠ stop)
  | [], x => by simp [isChainB, Links]
  | a :: L, x => by
    unfold isChainB Links
    rw [Bool.and_eq_true, Bool.and_eq_true, beq_iff_eq, Bool.not_eq_true', beq_eq_false_iff_ne]
    constructor
    · rintro ⟨⟨h1, h2⟩, h3⟩
      have := isChainB_iff_links.mp h3
      exact ⟨⟨h1, this.1⟩, by
        intro b hb
        rcases List.mem_cons.mp hb with hb | hb
        · exact hb ▸ h1 ▸ h2
        · exact this.2 b hb⟩
    · rintro ⟨⟨h1, h2⟩, h3⟩
      exact ⟨⟨h1, h1 ▸ h3 a (List.mem_cons_self _ _)⟩,
        isChainB_iff_links.mpr ⟨h2, fun b hb => h3 b (List.mem_cons_of_mem _ hb)⟩⟩

theorem links_snoc {g : Nat → Nat} {b : Nat} :
    ∀ {A : List Nat} {u v : Nat}, Links g (A ++ [b]) u v ↔ (Links g A u b ∧ g b = v)
  | [], u, v => by
    constructor
    · rintro ⟨h1, h2⟩
      have h3 : g u = v := h2
      exact ⟨h1.symm, by rw [h1]; exact h3⟩
    · rintro ⟨h1, h2⟩
      refine ⟨h1.symm, ?_⟩
      show Links g [] (g u) v
      show g u = v
      rw [h1]
      exact h2
  | a :: A, u, v => by
    simp only [List.cons_append, Links]
    constructor
    · rintro ⟨h1, h2⟩
      have := links_snoc.mp h2
      exact ⟨⟨h1, this.1⟩, this.2⟩
    · rintro ⟨⟨h1, h2⟩, h3⟩
      exact ⟨h1, links_snoc.mpr ⟨h2, h3⟩⟩

theorem links_reverse {f g : Nat → Nat} (hinv : ∀ y, g (f y) = y) :
    ∀ {L : List Nat} {x y : Nat}, Links f L x y → Links g L.reverse (g y) (g x)
  | [], x, y, h => by
    have hxy : x = y := h
    subst hxy
    rfl
  | a :: L, x, y, h => by
    obtain ⟨h1, h2⟩ := h
    have hIH := links_reverse hinv h2
    rw [List.reverse_cons]
    exact links_snoc.mpr ⟨by rw [hinv] at hIH; exact h1 ▸ hIH, h1 ▸ rfl⟩

theorem chain_reverse {f g : Nat → Nat} {stop : Nat} (hinv : ∀ y, g (f y) = y)
    {L : List Nat} (h : isChainB f stop (f stop) L = true) :
    isChainB g stop (g stop) L.reverse = true := by
  obtain ⟨h1, h2⟩ := isChainB_iff_links.mp h
  have hr := links_reverse hinv h1
  rw [hinv] at hr
  exact isChainB_iff_links.mpr ⟨hr, fun a ha => h2 a (List.mem_reverse.mp ha)⟩

theorem unlinkUD_pres_compat {co : Nat → Nat} {t : DLXState} (hc : UDCompat co t) (j : Nat) :
    UDCompat co (DLX.unlinkUD t j) := by
  intro x
  unfold DLX.unlinkUD
  dsimp only
  constructor
  · by_cases h : x = t.down j
    · rw [h, Function.update_same, (hc j).1, ← (hc j).2]
    · rw [Function.update_noteq h]; exact (hc x).1
  · by_cases h : x = t.up j
    · rw [h, Function.update_same, (hc j).2, ← (hc j).1]
    · rw [Function.update_noteq h]; exact (hc x).2

theorem unlinkUD_pres_stab {co : Nat → Nat} {c : Nat} {t : DLXState} (hc : UDCompat co t)
    {j : Nat} (hj : colClass co j ≠ c) {x : Nat} (hx : colClass co x = c) :
    (DLX.unlinkUD t j).up x = t.up x ∧ (DLX.unlinkUD t j).down x = t.down x := by
  unfold DLX.unlinkUD
  dsimp only
  constructor
  · have h : x ≠ t.down j := by
      intro he
      exact hj ((hc j).2 ▸ he ▸ hx)
    rw [Function.update_noteq h]
  · have h : x ≠ t.up j := by
      intro he
      exact hj ((hc j).1 ▸ he ▸ hx)
    rw [Function.update_noteq h]

theorem unlinkAll_pres {co : Nat → Nat} {c : Nat} :
    ∀ {L : List Nat} {t : DLXState}, UDCompat co t → (∀ j ∈ L, colClass co j ≠ c) →
      UDCompat co (unlinkAll L t) ∧
      ∀ x, colClass co x = c →
        (unlinkAll L t).up x = t.up x ∧ (unlinkAll L t).down x = t.down x
  | [], t, hc, _ => ⟨hc, fun _ _ => ⟨rfl, rfl⟩⟩
  | j :: L, t, hc, hj => by
    have hstep : unlinkAll (j :: L) t = unlinkAll L (DLX.unlinkUD t j) := rfl
    have hc1 := unlinkUD_pres_compat hc j
    have hIH := unlinkAll_pres (L := L) hc1 (fun k hk => hj k (List.mem_cons_of_mem _ hk))
    refine ⟨hstep ▸ hIH.1, fun x hx => ?_⟩
    have h1 := hIH.2 x hx
    have h2 := unlinkUD_pres_stab hc (hj j (List.mem_cons_self _ _)) hx
    rw [hstep]
    exact ⟨h1.1.trans h2.1, h1.2.trans h2.2⟩

theorem relinkUD_pres_compat {co : Nat → Nat} {t : DLXState} (hc : UDCompat co t) (j : Nat) :
    UDCompat co (DLX.relinkUD t j) := by
  intro x
  unfold DLX.relinkUD
  dsimp only
  constructor
  · by_cases h : x = t.down j
    · rw [h, Function.update_same, ← (hc j).2]
    · rw [Function.update_noteq h]; exact (hc x).1
  · by_cases h : x = t.up j
    · rw [h, Function.update_same, ← (hc j).1]
    · rw [Function.update_noteq h]; exact (hc x).2

theorem relinkUD_pres_stab {co : Nat → Nat} {c : Nat} {t : DLXState} (hc : UDCompat co t)
    {j : Nat} (hj : colClass co j ≠ c) {x : Nat} (hx : colClass co x = c) :
    (DLX.relinkUD t j).up x = t.up x ∧ (DLX.relinkUD t j).down x = t.down x := by
  unfold DLX.relinkUD
  dsimp only
  constructor
  · have h : x ≠ t.down j := by
      intro he
      exact hj ((hc j).2 ▸ he ▸ hx)
    rw [Function.update_noteq h]
  · have h : x ≠ t.up j := by
      intro he
      exact hj ((hc j).1 ▸ he ▸ hx)
    rw [Function.update_noteq h]

theorem relinkAll_pres {co : Nat → Nat} {c : Nat} :
    ∀ {L : List Nat} {t : DLXState}, UDCompat co t → (∀ j ∈ L, colClass co j ≠ c) →
      UDCompat co (relinkAll L t) ∧
      ∀ x, colClass co x = c →
        (relinkAll L t).up x = t.up x ∧ (relinkAll L t).down x = t.down x
  | [], t, hc, _ => ⟨hc, fun _ _ => ⟨rfl, rfl⟩⟩
  | j :: L, t, hc, hj => by
    have hstep : relinkAll (j :: L) t = relinkAll L (DLX.relinkUD t j) := rfl
    have hc1 := relinkUD_pres_compat hc j
    have hIH := relinkAll_pres (L := L) hc1 (fun k hk => hj k (List.mem_cons_of_mem _ hk))
    refine ⟨hstep ▸ hIH.1, fun x hx => ?_⟩
    have h1 := hIH.2 x hx
    have h2 := relinkUD_pres_stab hc (hj j (List.mem_cons_self _ _)) hx
    rw [hstep]
    exact ⟨h1.1.trans h2.1, h1.2.trans h2.2⟩

theorem coverRowAux_eq {node : Nat} :
    ∀ (L : List Nat) (t : DLXState) (j fuel : Nat),
      isChainB t.right node j L = true → L.length < fuel →
      DLX.coverRowAux t node j fuel = unlinkAll L t
  | [], t, j, fuel, hch, hf => by
    have hj : j = node := (isChainB_iff_links.mp hch).1
    cases fuel with
    | zero => omega
    | succ k =>
      simp only [DLX.coverRowAux]
      rw [if_pos hj]
      rfl
  | a :: L, t, j, fuel, hch, hf => by
    obtain ⟨⟨rfl, h2⟩, h3⟩ := isChainB_iff_links.mp hch
    cases fuel with
    | zero => simp at hf
    | succ k =>
      have hjn : a ≠ node := h3 a (List.mem_cons_self _ _)
      simp only [DLX.coverRowAux]
      rw [if_neg hjn]
      have hstep : unlinkAll (a :: L) t = unlinkAll L (DLX.unlinkUD t a) := rfl
      rw [hstep]
      have hch2 : isChainB (DLX.unlinkUD t a).right node ((DLX.unlinkUD t a).right a) L = true := by
        have hr : (DLX.unlinkUD t a).right = t.right := rfl
        rw [hr]
        exact isChainB_iff_links.mpr ⟨h2, fun b hb => h3 b (List.mem_cons_of_mem _ hb)⟩
      have hf2 : L.length < k := by
        simp only [List.length_cons] at hf
        omega
      exact coverRowAux_eq L (DLX.unlinkUD t a) _ k hch2 hf2

theorem uncoverRowAux_eq {node : Nat} :
    ∀ (L : List Nat) (t : DLXState) (j fuel : Nat),
      isChainB t.left node j L = true → L.length < fuel →
      DLX.uncoverRowAux t node j fuel = relinkAll L t
  | [], t, j, fuel, hch, hf => by
    have hj : j = node := (isChainB_iff_links.mp hch).1
    cases fuel with
    | zero => omega
    | succ k =>
      simp only [DLX.uncoverRowAux]
      rw [if_pos hj]
      rfl
  | a :: L, t, j, fuel, hch, hf => by
    obtain ⟨⟨rfl, h2⟩, h3⟩ := isChainB_iff_links.mp hch
    cases fuel with
    | zero => simp at hf
    | succ k =>
      have hjn : a ≠ node := h3 a (List.mem_cons_self _ _)
      simp only [DLX.uncoverRowAux]
      rw [if_neg hjn]
      have hstep : relinkAll (a :: L) t = relinkAll L (DLX.relinkUD t a) := rfl
      rw [hstep]
      have hch2 : isChainB (DLX.relinkUD t a).left node ((DLX.relinkUD t a).left a) L = true := by
        have hr : (DLX.relinkUD t a).left = t.left := rfl
        rw [hr]
        exact isChainB_iff_links.mpr ⟨h2, fun b hb => h3 b (List.mem_cons_of_mem _ hb)⟩
      have hf2 : L.length < k := by
        simp only [List.length_cons] at hf
        omega
      exact uncoverRowAux_eq L (DLX.relinkUD t a) _ k hch2 hf2

theorem unlinkAll_append (A B : List Nat) (t : DLXState) :
    unlinkAll (A ++ B) t = unlinkAll B (unlinkAll A t) := by
  simp [unlinkAll, List.foldl_append]

theorem relinkAll_append (A B : List Nat) (t : DLXState) :
    relinkAll (A ++ B) t = relinkAll B (relinkAll A t) := by
  simp [relinkAll, List.foldl_append]

theorem coverColAux_eq (u : DLXState) (c : Nat) (rowL : Nat → List Nat) (F : Nat)
    (hcne : c ≠ 0) :
    ∀ (colL : List Nat) (t : DLXState) (node fuel : Nat),
      t.right = u.right →
      UDCompat u.colOf t →
      (∀ x, colClass u.colOf x = c → t.down x = u.down x) →
      isChainB u.down c node colL = true →
      (∀ x ∈ colL, u.colOf x = c) →
      (∀ x ∈ colL, isChainB u.right x (u.right x) (rowL x) = true) →
      (∀ x ∈ colL, ∀ j ∈ rowL x, u.colOf j ≠ c ∧ u.colOf j ≠ 0) →
      (∀ x ∈ colL, (rowL x).length < F) →
      colL.length < fuel →
      DLX.coverColAux F t c node fuel = unlinkAll (colL.flatMap rowL) t
  | [], t, node, fuel, _, _, _, hch, _, _, _, _, hf => by
    have hn : node = c := (isChainB_iff_links.mp hch).1
    cases fuel with
    | zero => omega
    | succ k =>
      simp only [DLX.coverColAux]
      rw [if_pos hn]
      rfl
  | x :: rest, t, node, fuel, hr, hcomp, hstab, hch, hcolc, hrow, hrowc, hrowF, hf => by
    obtain ⟨⟨rfl, h2⟩, h3⟩ := isChainB_iff_links.mp hch
    cases fuel with
    | zero => simp at hf
    | succ k =>
      have hxn : x ≠ c := h3 x (List.mem_cons_self _ _)
      simp only [DLX.coverColAux]
      rw [if_neg hxn]
      have hx : x ∈ x :: rest := List.mem_cons_self _ _
      have hrowch : isChainB t.right x (t.right x) (rowL x) = true := by
        rw [hr]; exact hrow x hx
      have hs1 : DLX.coverRowAux t x (t.right x) F = unlinkAll (rowL x) t :=
        coverRowAux_eq (rowL x) t (t.right x) F hrowch (hrowF x hx)
      rw [hs1]
      have hclass : ∀ j ∈ rowL x, colClass u.colOf j ≠ c := by
        intro j hj
        have hcj := hrowc x hx j hj
        unfold colClass
        rw [if_neg hcj.2]
        exact hcj.1
      have hpres := unlinkAll_pres (c := c) hcomp hclass
      have hclx : colClass u.colOf x = c := by
        unfold colClass
        rw [if_neg (by rw [hcolc x hx]; exact hcne)]
        exact hcolc x hx
      have hdn : (unlinkAll (rowL x) t).down x = u.down x := by
        rw [(hpres.2 x hclx).2]
        exact hstab x hclx
      rw [hdn]
      have hch2 : isChainB u.down c (u.down x) rest = true :=
        isChainB_iff_links.mpr ⟨h2, fun b hb => h3 b (List.mem_cons_of_mem _ hb)⟩
      have hIH := coverColAux_eq u c rowL F hcne rest (unlinkAll (rowL x) t) (u.down x) k
        (by rw [unlinkAll_right]; exact hr)
        hpres.1
        (fun y hy => by rw [(hpres.2 y hy).2]; exact hstab y hy)
        hch2
        (fun y hy => hcolc y (List.mem_cons_of_mem _ hy))
        (fun y hy => hrow y (List.mem_cons_of_mem _ hy))
        (fun y hy => hrowc y (List.mem_cons_of_mem _ hy))
        (fun y hy => hrowF y (List.mem_cons_of_mem _ hy))
        (by simp only [List.length_cons] at hf; omega)
      rw [hIH]
      have hcat : (x :: rest).flatMap rowL = rowL x ++ rest.flatMap rowL := by
        simp [List.flatMap_cons]
      rw [hcat, unlinkAll_append]

theorem uncoverColAux_eq (u : DLXState) (c : Nat) (rowR : Nat → List Nat) (F : Nat)
    (hcne : c ≠ 0) :
    ∀ (colR : List Nat) (t : DLXState) (node fuel : Nat),
      t.left = u.left →
      UDCompat u.colOf t →
      (∀ x, colClass u.colOf x = c → t.up x = u.up x) →
      isChainB u.up c node colR = true →
      (∀ x ∈ colR, u.colOf x = c) →
      (∀ x ∈ colR, isChainB u.left x (u.left x) (rowR x) = true) →
      (∀ x ∈ colR, ∀ j ∈ rowR x, u.colOf j ≠ c ∧ u.colOf j ≠ 0) →
      (∀ x ∈ colR, (rowR x).length < F) →
      colR.length < fuel →
      DLX.uncoverColAux F t c node fuel = relinkAll (colR.flatMap rowR) t
  | [], t, node, fuel, _, _, _, hch, _, _, _, _, hf => by
    have hn : node = c := (isChainB_iff_links.mp hch).1
    cases fuel with
    | zero => omega
    | succ k =>
      simp only [DLX.uncoverColAux]
      rw [if_pos hn]
      rfl
  | x :: rest, t, node, fuel, hr, hcomp, hstab, hch, hcolc, hrow, hrowc, hrowF, hf => by
    obtain ⟨⟨rfl, h2⟩, h3⟩ := isChainB_iff_links.mp hch
    cases fuel with
    | zero => simp at hf
    | succ k =>
      have hxn : x ≠ c := h3 x (List.mem_cons_self _ _)
      simp only [DLX.uncoverColAux]
      rw [if_neg hxn]
      have hx : x ∈ x :: rest := List.mem_cons_self _ _
      have hrowch : isChainB t.left x (t.left x) (rowR x) = true := by
        rw [hr]; exact hrow x hx
      have hs1 : DLX.uncoverRowAux t x (t.left x) F = relinkAll (rowR x) t :=
        uncoverRowAux_eq (rowR x) t (t.left x) F hrowch (hrowF x hx)
      rw [hs1]
      have hclass : ∀ j ∈ rowR x, colClass u.colOf j ≠ c := by
        intro j hj
        have hcj := hrowc x hx j hj
        unfold colClass
        rw [if_neg hcj.2]
        exact hcj.1
      have hpres := relinkAll_pres (c := c) hcomp hclass
      have hclx : colClass u.colOf x = c := by
        unfold colClass
        rw [if_neg (by rw [hcolc x hx]; exact hcne)]
        exact hcolc x hx
      have hdn : (relinkAll (rowR x) t).up x = u.up x := by
        rw [(hpres.2 x hclx).1]
        exact hstab x hclx
      rw [hdn]
      have hch2 : isChainB u.up c (u.up x) rest = true :=
        isChainB_iff_links.mpr ⟨h2, fun b hb => h3 b (List.mem_cons_of_mem _ hb)⟩
      have hIH := uncoverColAux_eq u c rowR F hcne rest (relinkAll (rowR x) t) (u.up x) k
        (by rw [relinkAll_left]; exact hr)
        hpres.1
        (fun y hy => by rw [(hpres.2 y hy).1]; exact hstab y hy)
        hch2
        (fun y hy => hcolc y (List.mem_cons_of_mem _ hy))
        (fun y hy => hrow y (List.mem_cons_of_mem _ hy))
        (fun y hy => hrowc y (List.mem_cons_of_mem _ hy))
        (fun y hy => hrowF y (List.mem_cons_of_mem _ hy))
        (by simp only [List.length_cons] at hf; omega)
      rw [hIH]
      have hcat : (x :: rest).flatMap rowR = rowR x ++ rest.flatMap rowR := by
        simp [List.flatMap_cons]
      rw [hcat, relinkAll_append]

theorem hdrRelink_hdrUnlink {s : DLXState} {c : Nat}
    (hl : s.left (s.right c) = c) (hr : s.right (s.left c) = c)
    (h1 : c ≠ s.left c) (h2 : c ≠ s.right c) :
    hdrRelink (hdrUnlink s c) c = s := by
  unfold hdrRelink hdrUnlink
  dsimp only
  refine DLXState.ext rfl rfl ?_ ?_ rfl rfl rfl rfl
  · have e1 : Function.update s.right (s.left c) (s.right c) c = s.right c :=
      Function.update_noteq h1 _ _
    rw [e1, Function.update_idem]
    conv_rhs => rw [← Function.update_eq_self (s.right c) s.left]
    rw [hl]
  · have e2 : Function.update s.left (s.right c) (s.left c) c = s.left c :=
      Function.update_noteq h2 _ _
    rw [e2, Function.update_idem]
    conv_rhs => rw [← Function.update_eq_self (s.left c) s.right]
    rw [hr]

/-- C2: in a well-formed arena (vertical and horizontal rings are mutually
inverse, up and down stay within a column class, the covered column c is a
header whose node list colL and per-row rowmate lists rowL are given as
explicit chains avoiding the header ring neighbors), cover c unlinks exactly
the concatenated rowmate list in removal order, and uncover c immediately
after cover c replays those removals as relinks in exact reverse order and
restores the state bit-for-bit. -/
theorem C2_cover_uncover_inverse (s : DLXState) (c F : Nat) (colL : List Nat)
    (rowL : Nat → List Nat)
    (hud : ∀ y, s.down (s.up y) = y ∧ s.up (s.down y) = y)
    (hlr : ∀ y, s.left (s.right y) = y ∧ s.right (s.left y) = y)
    (hcompat : UDCompat s.colOf s)
    (hc0 : s.colOf c = 0) (hcne : c ≠ 0)
    (hnel : c ≠ s.left c) (hner : c ≠ s.right c)
    (hcolL : isChainB s.down c (s.down c) colL = true)
    (hcolc : ∀ x ∈ colL, s.colOf x = c)
    (hrowL : ∀ x ∈ colL, isChainB s.right x (s.right x) (rowL x) = true)
    (hrowc : ∀ x ∈ colL, ∀ j ∈ rowL x, s.colOf j ≠ c ∧ s.colOf j ≠ 0)
    (havoid : ∀ x ∈ colL, x ≠ s.left c ∧ x ≠ s.right c ∧
      ∀ j ∈ rowL x, j ≠ s.left c ∧ j ≠ s.right c)
    (hnodup : (colL.flatMap rowL).Nodup)
    (hcF : colL.length < F) (hrF : ∀ x ∈ colL, (rowL x).length < F) :
    DLX.cover F s c = unlinkAll (colL.flatMap rowL) (hdrUnlink s c) ∧
    DLX.uncover F (DLX.cover F s c) c =
      hdrRelink (relinkAll (colL.flatMap rowL).reverse
        (unlinkAll (colL.flatMap rowL) (hdrUnlink s c))) c ∧
    DLX.uncover F (DLX.cover F s c) c = s := by
  have hcov : DLX.cover F s c = unlinkAll (colL.flatMap rowL) (hdrUnlink s c) := by
    have hA : DLX.cover F s c =
        DLX.coverColAux F (hdrUnlink s c) c ((hdrUnlink s c).down c) F := rfl
    rw [hA]
    refine coverColAux_eq (hdrUnlink s c) c rowL F hcne colL (hdrUnlink s c)
      ((hdrUnlink s c).down c) F rfl hcompat (fun x _ => rfl) hcolL hcolc ?_ hrowc hrF hcF
    intro x hx
    have h1 : (hdrUnlink s c).right x = s.right x :=
      Function.update_noteq (havoid x hx).1 _ _
    have hagree : ∀ a ∈ rowL x, (hdrUnlink s c).right a = s.right a :=
      fun a ha => Function.update_noteq ((havoid x hx).2.2 a ha).1 _ _
    show isChainB (hdrUnlink s c).right x ((hdrUnlink s c).right x) (rowL x) = true
    rw [h1, chain_congr hagree]
    exact hrowL x hx
  have hJclass : ∀ j ∈ colL.flatMap rowL, colClass s.colOf j ≠ c := by
    intro j hj
    rw [List.mem_flatMap] at hj
    obtain ⟨x, hx, hjx⟩ := hj
    have hcj := hrowc x hx j hjx
    unfold colClass
    rw [if_neg hcj.2]
    exact hcj.1
  have hpres := unlinkAll_pres (c := c) (L := colL.flatMap rowL)
    (t := hdrUnlink s c) hcompat hJclass
  have hclc : colClass s.colOf c = c := by
    unfold colClass
    rw [if_pos hc0]
  have hupc : (unlinkAll (colL.flatMap rowL) (hdrUnlink s c)).up c = s.up c :=
    (hpres.2 c hclc).1
  have huncol : DLX.uncoverColAux F (unlinkAll (colL.flatMap rowL) (hdrUnlink s c)) c
      ((unlinkAll (colL.flatMap rowL) (hdrUnlink s c)).up c) F =
      relinkAll (colL.reverse.flatMap fun x => (rowL x).reverse)
        (unlinkAll (colL.flatMap rowL) (hdrUnlink s c)) := by
    refine uncoverColAux_eq (hdrUnlink s c) c (fun x => (rowL x).reverse) F hcne
      colL.reverse (unlinkAll (colL.flatMap rowL) (hdrUnlink s c))
      ((unlinkAll (colL.flatMap rowL) (hdrUnlink s c)).up c) F
      (unlinkAll_left _ _) hpres.1 (fun x hx => (hpres.2 x hx).1) ?_
      (fun x hx => hcolc x (List.mem_reverse.mp hx)) ?_
      (fun x hx j hj => hrowc x (List.mem_reverse.mp hx) j (List.mem_reverse.mp hj)) ?_ ?_
    · rw [hupc]
      exact chain_reverse (fun y => (hud y).2) hcolL
    · intro x hxr
      have hx := List.mem_reverse.mp hxr
      have hrev : isChainB s.left x (s.left x) (rowL x).reverse = true :=
        chain_reverse (fun y => (hlr y).1) (hrowL x hx)
      have h1 : (hdrUnlink s c).left x = s.left x :=
        Function.update_noteq (havoid x hx).2.1 _ _
      have hagree : ∀ a ∈ (rowL x).reverse, (hdrUnlink s c).left a = s.left a :=
        fun a ha => Function.update_noteq
          ((havoid x hx).2.2 a (List.mem_reverse.mp ha)).2 _ _
      show isChainB (hdrUnlink s c).left x ((hdrUnlink s c).left x) (rowL x).reverse = true
      rw [h1, chain_congr hagree]
      exact hrev
    · intro x hxr
      rw [List.length_reverse]
      exact hrF x (List.mem_reverse.mp hxr)
    · rw [List.length_reverse]
      exact hcF
  have hflat : (colL.reverse.flatMap fun x => (rowL x).reverse) =
      (colL.flatMap rowL).reverse := by
    rw [List.reverse_flatMap]
    rfl
  have hcancel : relinkAll (colL.flatMap rowL).reverse
      (unlinkAll (colL.flatMap rowL) (hdrUnlink s c)) = hdrUnlink s c :=
    relink_unlink_all _ _ hnodup (fun j _ => hud j)
  have hhdr : hdrRelink (hdrUnlink s c) c = s :=
    hdrRelink_hdrUnlink (hlr c).1 (hlr c).2 hnel hner
  have hB : DLX.uncover F (unlinkAll (colL.flatMap rowL) (hdrUnlink s c)) c =
      hdrRelink (DLX.uncoverColAux F (unlinkAll (colL.flatMap rowL) (hdrUnlink s c)) c
        ((unlinkAll (colL.flatMap rowL) (hdrUnlink s c)).up c) F) c := rfl
  refine ⟨hcov, ?_, ?_⟩
  · rw [hcov, hB, huncol, hflat]
  · rw [hcov, hB, huncol, hflat, hcancel, hhdr]

set_option maxHeartbeats 2000000 in
/-- Witness for C2: the inverse law applied on a concrete ten-node arena
(three columns, three rows of the 0-1 matrix 110 / 101 / 011) at header
column 1 with fuel 5. -/
theorem C2_cover_uncover_inverse_witness :
    DLX.cover 5 c2S 1 = unlinkAll ([4, 6].flatMap c2RowL) (hdrUnlink c2S 1) ∧
    DLX.uncover 5 (DLX.cover 5 c2S 1) 1 =
      hdrRelink (relinkAll ([4, 6].flatMap c2RowL).reverse
        (unlinkAll ([4, 6].flatMap c2RowL) (hdrUnlink c2S 1))) 1 ∧
    DLX.uncover 5 (DLX.cover 5 c2S 1) 1 = c2S := by
  have hup : ∀ y, 10 ≤ y → c2S.up y = y := by
    intro y hy
    show (if y = 1 then 6 else if y = 2 then 8 else if y = 3 then 9 else
      if y = 4 then 1 else if y = 5 then 2 else if y = 6 then 4 else if y = 7 then 3 else
      if y = 8 then 5 else if y = 9 then 7 else y) = y
    split_ifs <;> omega
  have hdown : ∀ y, 10 ≤ y → c2S.down y = y := by
    intro y hy
    show (if y = 1 then 4 else if y = 2 then 5 else if y = 3 then 7 else
      if y = 4 then 6 else if y = 5 then 8 else if y = 6 then 1 else if y = 7 then 9 else
      if y = 8 then 2 else if y = 9 then 3 else y) = y
    split_ifs <;> omega
  have hleft : ∀ y, 10 ≤ y → c2S.left y = y := by
    intro y hy
    show (if y = 0 then 3 else if y = 1 then 0 else if y = 2 then 1 else
      if y = 3 then 2 else if y = 4 then 5 else if y = 5 then 4 else if y = 6 then 7 else
      if y = 7 then 6 else if y = 8 then 9 else if y = 9 then 8 else y) = y
    split_ifs <;> omega
  have hright : ∀ y, 10 ≤ y → c2S.right y = y := by
    intro y hy
    show (if y = 0 then 1 else if y = 1 then 2 else if y = 2 then 3 else
      if y = 3 then 0 else if y = 4 then 5 else if y = 5 then 4 else if y = 6 then 7 else
      if y = 7 then 6 else if y = 8 then 9 else if y = 9 then 8 else y) = y
    split_ifs <;> omega
  have hud : ∀ y, c2S.down (c2S.up y) = y ∧ c2S.up (c2S.down y) = y := by
    have hsmall : ∀ y < 10, c2S.down (c2S.up y) = y ∧ c2S.up (c2S.down y) = y := by decide
    intro y
    by_cases hy : y < 10
    · exact hsmall y hy
    · have hy10 : 10 ≤ y := Nat.le_of_not_lt hy
      constructor
      · rw [hup y hy10]
        exact hdown y hy10
      · rw [hdown y hy10]
        exact hup y hy10
  have hlr : ∀ y, c2S.left (c2S.right y) = y ∧ c2S.right (c2S.left y) = y := by
    have hsmall : ∀ y < 10, c2S.left (c2S.right y) = y ∧ c2S.right (c2S.left y) = y := by
      decide
    intro y
    by_cases hy : y < 10
    · exact hsmall y hy
    · have hy10 : 10 ≤ y := Nat.le_of_not_lt hy
      constructor
      · rw [hright y hy10]
        exact hleft y hy10
      · rw [hleft y hy10]
        exact hright y hy10
  have hcompat : UDCompat c2S.colOf c2S := by
    have hsmall : ∀ y < 10, colClass c2S.colOf (c2S.up y) = colClass c2S.colOf y ∧
        colClass c2S.colOf (c2S.down y) = colClass c2S.colOf y := by decide
    intro y
    by_cases hy : y < 10
    · exact hsmall y hy
    · have hy10 : 10 ≤ y := Nat.le_of_not_lt hy
      rw [hup y hy10, hdown y hy10]
      exact ⟨rfl, rfl⟩
  exact C2_cover_uncover_inverse c2S 1 5 [4, 6] c2RowL hud hlr hcompat (by decide)
    (by decide) (by decide) (by decide) (by decide) (by decide) (by decide) (by decide)
    (by decide) (by decide) (by decide) (by decide)
